import Mathlib

/-!
Shallow embedding of the Economic Reconciliation Engine of `src/cc_economics.rs`
(the `rtk` repository): period-key normalization (Saturday→Monday week keys),
the daily/weekly/monthly merge of a spend ledger (`ccusage`) with a savings
ledger (`rtk` tracking), per-record dual cost-per-token metrics, and the totals
aggregator.  Rust `f64` amounts are modelled as exact rationals `ℚ`; `u64` and
`usize` counters as `ℕ`; Rust `Option` as Lean `Option`.  The intermediate
`HashMap` is modelled as an association list with the `entry(..).or_insert_with`
get-or-create discipline; its unspecified iteration order is modelled
relationally where a claim depends on it.
-/

/-- Byte-lexicographic comparison of Rust `String`s, modelled on the character
list (UTF-8 byte order coincides with code-point order, so list-lexicographic
comparison by code point is the same order). `charListLe a b = true` iff
`a <= b` in Rust's `String::cmp`. -/
def charListLe : List Char → List Char → Bool
  | [], _ => true
  | _ :: _, [] => false
  | a :: as, b :: bs =>
    if a.toNat < b.toNat then true
    else if b.toNat < a.toNat then false
    else charListLe as bs

-- ── Calendar model (chrono `NaiveDate` as used by `convert_saturday_to_monday`) ──

/-- A proleptic-Gregorian calendar date, as chrono's `NaiveDate` restricted to
the year range `0..=9999` reachable through an unsigned 4-digit `%Y` parse. -/
structure Date where
  year : ℕ
  month : ℕ
  day : ℕ
deriving DecidableEq, Repr

/-- Gregorian leap-year rule (chrono's rule on non-negative years). -/
def isLeapYear (y : ℕ) : Bool :=
  (y % 4 == 0 && y % 100 != 0) || y % 400 == 0

/-- Number of days of month `m` of year `y` (months are 1-based). -/
def daysInMonth (y m : ℕ) : ℕ :=
  if m = 2 then (if isLeapYear y then 29 else 28)
  else if m = 4 ∨ m = 6 ∨ m = 9 ∨ m = 11 then 30
  else 31

/-- Validity of a year/month/day triple, chrono's `NaiveDate::from_ymd_opt`. -/
def validYmd (y m d : ℕ) : Bool :=
  1 ≤ m && m ≤ 12 && 1 ≤ d && d ≤ daysInMonth y m

/-- ASCII decimal digit test. -/
def isDigitChar (c : Char) : Bool :=
  48 ≤ c.toNat && c.toNat ≤ 57

/-- Numeric value of an ASCII digit. -/
def digitVal (c : Char) : ℕ := c.toNat - 48

/-- Split a character list into its longest digit prefix and the rest. -/
def takeDigits : List Char → List Char × List Char
  | [] => ([], [])
  | c :: cs =>
    if isDigitChar c then
      let p := takeDigits cs
      (c :: p.1, p.2)
    else ([], c :: cs)

/-- Decimal value of a digit list (most significant first). -/
def digitsToNat (l : List Char) : ℕ :=
  l.foldl (fun a c => a * 10 + digitVal c) 0

/-- Model of `NaiveDate::parse_from_str(s, "%Y-%m-%d")`: an unsigned year of
1–4 digits, a literal `-`, a month of 1–2 digits, a literal `-`, a day of
1–2 digits, the whole input consumed, and the triple a valid calendar date.
chrono accepts missing zero padding when parsing numeric fields, which the
digit-count bounds reproduce; negative years are outside this model. -/
def parseDate (s : String) : Option Date :=
  let py := takeDigits s.data
  if py.1.length = 0 ∨ 4 < py.1.length then none else
  match py.2 with
  | '-' :: r2 =>
    let pm := takeDigits r2
    if pm.1.length = 0 ∨ 2 < pm.1.length then none else
    (match pm.2 with
     | '-' :: r4 =>
       let pd := takeDigits r4
       if pd.1.length = 0 ∨ 2 < pd.1.length ∨ pd.2 ≠ [] then none else
       let y := digitsToNat py.1
       let m := digitsToNat pm.1
       let d := digitsToNat pd.1
       if validYmd y m d then some ⟨y, m, d⟩ else none
     | _ => none)
  | _ => none

/-- Successor date in the proleptic Gregorian calendar. -/
def nextDay (d : Date) : Date :=
  if d.day < daysInMonth d.year d.month then ⟨d.year, d.month, d.day + 1⟩
  else if d.month < 12 then ⟨d.year, d.month + 1, 1⟩
  else ⟨d.year + 1, 1, 1⟩

/-- Adding `n` days to a date (chrono's `date + TimeDelta::try_days(n)`). -/
def addDays (d : Date) : ℕ → Date
  | 0 => d
  | n + 1 => nextDay (addDays d n)

/-- ASCII digit character of a value `< 10`. -/
def digitChar (n : ℕ) : Char := Char.ofNat (48 + n)

/-- Zero-padded 2-digit decimal rendering (chrono `%m` / `%d`). -/
def pad2 (n : ℕ) : List Char := [digitChar (n / 10 % 10), digitChar (n % 10)]

/-- Zero-padded 4-digit decimal rendering (chrono `%Y` on years `0..=9999`). -/
def pad4 (n : ℕ) : List Char :=
  [digitChar (n / 1000 % 10), digitChar (n / 100 % 10),
   digitChar (n / 10 % 10), digitChar (n % 10)]

/-- Model of `date.format("%Y-%m-%d").to_string()`. -/
def formatDate (d : Date) : String :=
  ⟨pad4 d.year ++ '-' :: (pad2 d.month ++ '-' :: pad2 d.day)⟩

/-- Embedding of `convert_saturday_to_monday`: parse the legacy Saturday week
start, add exactly 2 days, re-format as `YYYY-MM-DD`; `none` when the input
does not parse as a date. -/
def convert_saturday_to_monday (saturday : String) : Option String :=
  (parseDate saturday).map (fun d => formatDate (addDays d 2))

-- ── Ledger record types ──

/-- Per-period spend metrics from the external `ccusage` tool.  Modelled from
the spec: the struct lives in `src/ccusage.rs`, which is not part of the
sources here; its fields are those named by spec §6 and constructed by the
tests in `cc_economics.rs`. -/
structure CcusageMetrics where
  input_tokens : ℕ
  output_tokens : ℕ
  cache_creation_tokens : ℕ
  cache_read_tokens : ℕ
  total_tokens : ℕ
  total_cost : ℚ
deriving DecidableEq, Repr

/-- One spend-ledger entry: a period key plus its metrics. -/
structure CcusagePeriod where
  key : String
  metrics : CcusageMetrics
deriving DecidableEq, Repr

/-- Daily savings-ledger record.  Modelled from the spec: `DayStats` lives in
`src/tracking.rs`, absent here; the fields are those read by
`set_rtk_from_day` and `merge_daily`. -/
structure DayStats where
  date : String
  commands : ℕ
  saved_tokens : ℕ
  savings_pct : ℚ
deriving DecidableEq, Repr

/-- Weekly savings-ledger record.  Modelled from the spec: `WeekStats` lives in
`src/tracking.rs`, absent here; the fields are those read by
`set_rtk_from_week` and `merge_weekly`. -/
structure WeekStats where
  week_start : String
  commands : ℕ
  saved_tokens : ℕ
  savings_pct : ℚ
deriving DecidableEq, Repr

/-- Monthly savings-ledger record.  Modelled from the spec: `MonthStats` lives
in `src/tracking.rs`, absent here; the fields are those read by
`set_rtk_from_month` and constructed by the tests in `cc_economics.rs`. -/
structure MonthStats where
  month : String
  commands : ℕ
  input_tokens : ℕ
  output_tokens : ℕ
  saved_tokens : ℕ
  savings_pct : ℚ
deriving DecidableEq, Repr

-- ── PeriodEconomics ──

/-- Embedding of `PeriodEconomics`: one merged record per reporting period,
every source-dependent field optional. -/
structure PeriodEconomics where
  label : String
  cc_cost : Option ℚ
  cc_total_tokens : Option ℕ
  cc_active_tokens : Option ℕ
  rtk_commands : Option ℕ
  rtk_saved_tokens : Option ℕ
  rtk_savings_pct : Option ℚ
  blended_cpt : Option ℚ
  active_cpt : Option ℚ
  savings_blended : Option ℚ
  savings_active : Option ℚ
deriving DecidableEq, Repr

/-- Embedding of `PeriodEconomics::new`. -/
def PeriodEconomics.new (label : String) : PeriodEconomics :=
  ⟨label, none, none, none, none, none, none, none, none, none, none⟩

/-- Embedding of `PeriodEconomics::set_ccusage`. -/
def PeriodEconomics.set_ccusage (p : PeriodEconomics) (m : CcusageMetrics) :
    PeriodEconomics :=
  { p with
    cc_cost := some m.total_cost
    cc_total_tokens := some m.total_tokens
    cc_active_tokens := some (m.input_tokens + m.output_tokens) }

/-- Embedding of `PeriodEconomics::set_rtk_from_day`. -/
def PeriodEconomics.set_rtk_from_day (p : PeriodEconomics) (s : DayStats) :
    PeriodEconomics :=
  { p with
    rtk_commands := some s.commands
    rtk_saved_tokens := some s.saved_tokens
    rtk_savings_pct := some s.savings_pct }

/-- Embedding of `PeriodEconomics::set_rtk_from_week`. -/
def PeriodEconomics.set_rtk_from_week (p : PeriodEconomics) (s : WeekStats) :
    PeriodEconomics :=
  { p with
    rtk_commands := some s.commands
    rtk_saved_tokens := some s.saved_tokens
    rtk_savings_pct := some s.savings_pct }

/-- Embedding of `PeriodEconomics::set_rtk_from_month`: the percentage is
derived, with the zero fallback keyed on `input_tokens + output_tokens > 0`. -/
def PeriodEconomics.set_rtk_from_month (p : PeriodEconomics) (s : MonthStats) :
    PeriodEconomics :=
  { p with
    rtk_commands := some s.commands
    rtk_saved_tokens := some s.saved_tokens
    rtk_savings_pct := some
      (if 0 < s.input_tokens + s.output_tokens then
        (s.saved_tokens : ℚ)
          / ((s.saved_tokens + s.input_tokens + s.output_tokens : ℕ) : ℚ) * 100
      else 0) }

/-- Embedding of `PeriodEconomics::compute_dual_metrics`: both rates need
`cc_cost` and `rtk_saved_tokens` present (the outer `if let`), each rate
additionally needs its token count present and positive.  The blended update
never touches `cc_active_tokens`, so the second `if let` reads the same value
from `p` as from the updated record `p1`. -/
def PeriodEconomics.compute_dual_metrics (p : PeriodEconomics) :
    PeriodEconomics :=
  match p.cc_cost, p.rtk_saved_tokens with
  | some cost, some saved =>
    let p1 :=
      match p.cc_total_tokens with
      | some total =>
        if 0 < total then
          { p with
            blended_cpt := some (cost / (total : ℚ))
            savings_blended := some ((saved : ℚ) * (cost / (total : ℚ))) }
        else p
      | none => p
    (match p.cc_active_tokens with
     | some active =>
       if 0 < active then
         { p1 with
           active_cpt := some (cost / (active : ℚ))
           savings_active := some ((saved : ℚ) * (cost / (active : ℚ))) }
       else p1
     | none => p1)
  | _, _ => p

-- ── Keyed map (the merge HashMap as an association list) ──

/-- The merge `HashMap<String, PeriodEconomics>`, as an association list in
insertion order with unique keys. -/
abbrev EconMap : Type := List (String × PeriodEconomics)

/-- Embedding of `map.entry(k).or_insert_with(|| PeriodEconomics::new(k))`
followed by a mutation `f` of the entry: update in place when the key exists,
otherwise append a fresh record and update that. -/
def mapUpdate : EconMap → String → (PeriodEconomics → PeriodEconomics) → EconMap
  | [], k, f => [(k, f (PeriodEconomics.new k))]
  | (k', v) :: rest, k, f =>
    if k' = k then (k', f v) :: rest else (k', v) :: mapUpdate rest k f

/-- Key lookup in the association-list map. -/
def lookupMap : EconMap → String → Option PeriodEconomics
  | [], _ => none
  | (k', v) :: rest, k => if k' = k then some v else lookupMap rest k

/-- Key list of the map. -/
def keysOf (m : EconMap) : List String := m.map Prod.fst

/-- Value list of the map, in insertion order (`map.into_values()` under one
fixed iteration order; the unspecified `HashMap` order is treated
relationally where it matters). -/
def valuesOf (m : EconMap) : List PeriodEconomics := m.map Prod.snd

/-- One merge step, generic in an optional canonical key and a field setter:
entries whose key function yields `none` are skipped (`continue`), all others
get-or-create the record for the key and update it. -/
def stepFn {α : Type} (κ : α → Option String)
    (φ : α → PeriodEconomics → PeriodEconomics) (m : EconMap) (e : α) :
    EconMap :=
  match κ e with
  | none => m
  | some k => mapUpdate m k (φ e)

/-- Ordering of merged records used by `result.sort_by(|a, b| a.label.cmp(&b.label))`. -/
def labelLe (a b : PeriodEconomics) : Prop :=
  charListLe a.label.data b.label.data = true

instance : DecidableRel labelLe := fun a b =>
  inferInstanceAs (Decidable (_ = true))

/-- The final sort by ascending label (a stable sort, as Rust's `sort_by`). -/
def sortPeriods (l : List PeriodEconomics) : List PeriodEconomics :=
  List.insertionSort labelLe l

/-- Shared tail of the three merges: collect the map values, compute dual
metrics on each record, sort by label. -/
def finalize (m : EconMap) : List PeriodEconomics :=
  sortPeriods ((valuesOf m).map PeriodEconomics.compute_dual_metrics)

/-- Shared head of the three merges: fold the optional spend-ledger collection
into an empty map, keyed by each entry's period key. -/
def ccMap (cc : Option (List CcusagePeriod)) : EconMap :=
  match cc with
  | none => []
  | some l =>
    l.foldl (fun m e => mapUpdate m e.key (fun p => p.set_ccusage e.metrics)) []

/-- Embedding of `merge_daily`. -/
def merge_daily (cc : Option (List CcusagePeriod)) (rtk : List DayStats) :
    List PeriodEconomics :=
  finalize (rtk.foldl
    (fun m e => mapUpdate m e.date (fun p => p.set_rtk_from_day e)) (ccMap cc))

/-- Embedding of `merge_weekly`: savings entries are re-keyed through
`convert_saturday_to_monday`; entries whose week start does not parse are
skipped (warn-and-`continue`). -/
def merge_weekly (cc : Option (List CcusagePeriod)) (rtk : List WeekStats) :
    List PeriodEconomics :=
  finalize (rtk.foldl
    (fun m e =>
      match convert_saturday_to_monday e.week_start with
      | none => m
      | some monday_key =>
        mapUpdate m monday_key (fun p => p.set_rtk_from_week e))
    (ccMap cc))

/-- Embedding of `merge_monthly`. -/
def merge_monthly (cc : Option (List CcusagePeriod)) (rtk : List MonthStats) :
    List PeriodEconomics :=
  finalize (rtk.foldl
    (fun m e => mapUpdate m e.month (fun p => p.set_rtk_from_month e))
    (ccMap cc))

-- ── Totals ──

/-- Embedding of the `Totals` aggregate record: the summed fields are
non-optional, the dual metrics optional. -/
structure Totals where
  cc_cost : ℚ
  cc_total_tokens : ℕ
  cc_active_tokens : ℕ
  rtk_commands : ℕ
  rtk_saved_tokens : ℕ
  rtk_avg_savings_pct : ℚ
  blended_cpt : Option ℚ
  active_cpt : Option ℚ
  savings_blended : Option ℚ
  savings_active : Option ℚ
deriving DecidableEq, Repr

/-- The zero-initialised `Totals` of `compute_totals`. -/
def totalsInit : Totals :=
  ⟨0, 0, 0, 0, 0, 0, none, none, none, none⟩

/-- One iteration of the accumulation loop of `compute_totals`; the extra pair
carries `pct_sum` and `pct_count`. -/
def totalsStep (acc : Totals × ℚ × ℕ) (p : PeriodEconomics) : Totals × ℚ × ℕ :=
  let t := acc.1
  let t := match p.cc_cost with
    | some cost => { t with cc_cost := t.cc_cost + cost }
    | none => t
  let t := match p.cc_total_tokens with
    | some total => { t with cc_total_tokens := t.cc_total_tokens + total }
    | none => t
  let t := match p.cc_active_tokens with
    | some active => { t with cc_active_tokens := t.cc_active_tokens + active }
    | none => t
  let t := match p.rtk_commands with
    | some cmds => { t with rtk_commands := t.rtk_commands + cmds }
    | none => t
  let t := match p.rtk_saved_tokens with
    | some saved => { t with rtk_saved_tokens := t.rtk_saved_tokens + saved }
    | none => t
  match p.rtk_savings_pct with
  | some pct => (t, acc.2.1 + pct, acc.2.2 + 1)
  | none => (t, acc.2.1, acc.2.2)

/-- Embedding of `compute_totals`: accumulate the optional per-period fields
into plain sums, average `savings_pct` over the periods that report it, then
recompute the dual metrics from the summed totals. -/
def compute_totals (periods : List PeriodEconomics) : Totals :=
  let acc := periods.foldl totalsStep (totalsInit, 0, 0)
  let t := acc.1
  let t := if 0 < acc.2.2 then
      { t with rtk_avg_savings_pct := acc.2.1 / (acc.2.2 : ℚ) }
    else t
  let t := if 0 < t.cc_total_tokens then
      { t with
        blended_cpt := some (t.cc_cost / (t.cc_total_tokens : ℚ))
        savings_blended := some
          ((t.rtk_saved_tokens : ℚ) * (t.cc_cost / (t.cc_total_tokens : ℚ))) }
    else t
  if 0 < t.cc_active_tokens then
    { t with
      active_cpt := some (t.cc_cost / (t.cc_active_tokens : ℚ))
      savings_active := some
        ((t.rtk_saved_tokens : ℚ) * (t.cc_cost / (t.cc_active_tokens : ℚ))) }
  else t

-- ── Inputs used by the concrete counterexamples and witnesses ──

/-- Spend entry of the end-to-end scenario in spec §8 and the repository's
`test_merge_monthly_both_present`. -/
def exSpendEntry : CcusagePeriod :=
  ⟨"2026-01", ⟨1000, 500, 100, 200, 1800, 617 / 50⟩⟩

/-- Monthly savings entry whose `saved_tokens` is positive while
`input_tokens + output_tokens = 0`. -/
def exMonthSavedOnly : MonthStats := ⟨"2026-01", 1, 0, 0, 5, 50⟩

/-- Monthly savings entry of the end-to-end scenario in spec §8. -/
def exMonthEntry : MonthStats := ⟨"2026-01", 10, 800, 400, 5000, 50⟩

/-- A spend entry whose token counts are zero while its cost is positive. -/
def exZeroSpend : CcusagePeriod := ⟨"2026-01-01", ⟨0, 0, 0, 0, 0, 5⟩⟩

/-- The single record produced by merging `exZeroSpend` with no savings. -/
def exZeroRecord : PeriodEconomics :=
  ((PeriodEconomics.new "2026-01-01").set_ccusage
    exZeroSpend.metrics).compute_dual_metrics

/-- The single record produced by merging `exSpendEntry` with `exMonthEntry`. -/
def exMergedBoth : PeriodEconomics :=
  (((PeriodEconomics.new "2026-01").set_ccusage
    exSpendEntry.metrics).set_rtk_from_month exMonthEntry).compute_dual_metrics

/-- Two spend entries sharing one key, to exercise overwrite-on-duplicate. -/
def exDupSpend : List CcusagePeriod :=
  [⟨"2026-01-01", ⟨1, 1, 0, 0, 2, 7⟩⟩, ⟨"2026-01-01", ⟨3, 4, 0, 0, 10, 9⟩⟩]

/-- Two daily savings entries sharing one date. -/
def exDupDays : List DayStats :=
  [⟨"2026-01-01", 2, 100, 25⟩, ⟨"2026-01-01", 6, 900, 75⟩]

/-- The single record produced by the duplicate-key daily merge. -/
def exDupRecord : PeriodEconomics :=
  (((((PeriodEconomics.new "2026-01-01").set_ccusage
          ⟨1, 1, 0, 0, 2, 7⟩).set_ccusage
        ⟨3, 4, 0, 0, 10, 9⟩).set_rtk_from_day
      ⟨"2026-01-01", 2, 100, 25⟩).set_rtk_from_day
    ⟨"2026-01-01", 6, 900, 75⟩).compute_dual_metrics

/-- A period list whose spend fields are present but savings absent. -/
def exNoSavedPeriods : List PeriodEconomics :=
  [⟨"2026-01", some 5, some 10, some 4, none, none, none, none, none, none,
    none⟩]

/-- Two spend entries with asymmetric token volumes (spec §8 requires an
asymmetric example to separate the two totals policies). -/
def exSpendAsym : List CcusagePeriod :=
  [⟨"2026-01", ⟨9000, 1000, 0, 990000, 1000000, 100⟩⟩,
   ⟨"2026-02", ⟨30, 20, 0, 50, 100, 200⟩⟩]

/-- Savings entries matching `exSpendAsym` so that per-period dual metrics are
populated. -/
def exSavingsAsym : List MonthStats :=
  [⟨"2026-01", 3, 500, 100, 10, 0⟩, ⟨"2026-02", 4, 600, 200, 20, 0⟩]

/-- The merged asymmetric example list. -/
def exPeriodsAsym : List PeriodEconomics :=
  merge_monthly (some exSpendAsym) exSavingsAsym

/-- The first record of `exPeriodsAsym`, written out. -/
def exPeriodAsym1 : PeriodEconomics :=
  ⟨"2026-01", some 100, some 1000000, some 10000, some 3, some 10,
   some (((10 : ℕ) : ℚ) / (((610 : ℕ)) : ℚ) * 100),
   some ((100 : ℚ) / ((1000000 : ℕ) : ℚ)),
   some ((100 : ℚ) / ((10000 : ℕ) : ℚ)),
   some (((10 : ℕ) : ℚ) * ((100 : ℚ) / ((1000000 : ℕ) : ℚ))),
   some (((10 : ℕ) : ℚ) * ((100 : ℚ) / ((10000 : ℕ) : ℚ)))⟩

/-- The second record of `exPeriodsAsym`, written out. -/
def exPeriodAsym2 : PeriodEconomics :=
  ⟨"2026-02", some 200, some 100, some 50, some 4, some 20,
   some (((20 : ℕ) : ℚ) / (((820 : ℕ)) : ℚ) * 100),
   some ((200 : ℚ) / ((100 : ℕ) : ℚ)),
   some ((200 : ℚ) / ((50 : ℕ) : ℚ)),
   some (((20 : ℕ) : ℚ) * ((200 : ℚ) / ((100 : ℕ) : ℚ))),
   some (((20 : ℕ) : ℚ) * ((200 : ℚ) / ((50 : ℕ) : ℚ)))⟩

/-- Modelled from the spec: the rejected aggregation policy "the arithmetic
mean of the per-period dual metrics" (spec §4.4), stated only to be compared
against `compute_totals`; `none` when no period carries the metric. -/
def meanBlendedOfPeriods (ps : List PeriodEconomics) : Option ℚ :=
  let l := ps.filterMap (fun p => p.blended_cpt)
  if l.length = 0 then none else some (l.sum / (l.length : ℚ))

/-- Last spend metrics written for a key: later entries of the same source
collection overwrite earlier ones. -/
def lastCc : List CcusagePeriod → String → Option CcusageMetrics
  | [], _ => none
  | e :: rest, k =>
    match lastCc rest k with
    | some w => some w
    | none => if e.key = k then some e.metrics else none

/-- Last daily savings record written for a key. -/
def lastDay : List DayStats → String → Option DayStats
  | [], _ => none
  | e :: rest, k =>
    match lastDay rest k with
    | some w => some w
    | none => if e.date = k then some e else none

/-- Canonical keys contributed by the optional spend collection. -/
def ccKeys (cc : Option (List CcusagePeriod)) : List String :=
  match cc with
  | none => []
  | some l => l.map (fun e => e.key)

/-- Canonical keys of a daily merge: spend keys then savings dates. -/
def dailyKeys (cc : Option (List CcusagePeriod)) (rtk : List DayStats) :
    List String :=
  ccKeys cc ++ rtk.map (fun e => e.date)

/-- Canonical keys of a weekly merge: spend keys then the normalized Monday
keys of the savings entries that parse. -/
def weeklyKeys (cc : Option (List CcusagePeriod)) (rtk : List WeekStats) :
    List String :=
  ccKeys cc ++ rtk.filterMap (fun e => convert_saturday_to_monday e.week_start)

/-- Canonical keys of a monthly merge: spend keys then savings months. -/
def monthlyKeys (cc : Option (List CcusagePeriod)) (rtk : List MonthStats) :
    List String :=
  ccKeys cc ++ rtk.map (fun e => e.month)

/-- The map built by `merge_daily` before metrics and sorting. -/
def dailyMap (cc : Option (List CcusagePeriod)) (rtk : List DayStats) :
    EconMap :=
  rtk.foldl (fun m e => mapUpdate m e.date (fun p => p.set_rtk_from_day e))
    (ccMap cc)

/-- The map built by `merge_weekly` before metrics and sorting. -/
def weeklyMap (cc : Option (List CcusagePeriod)) (rtk : List WeekStats) :
    EconMap :=
  rtk.foldl
    (fun m e =>
      match convert_saturday_to_monday e.week_start with
      | none => m
      | some monday_key =>
        mapUpdate m monday_key (fun p => p.set_rtk_from_week e))
    (ccMap cc)

/-- The map built by `merge_monthly` before metrics and sorting. -/
def monthlyMap (cc : Option (List CcusagePeriod)) (rtk : List MonthStats) :
    EconMap :=
  rtk.foldl (fun m e => mapUpdate m e.month (fun p => p.set_rtk_from_month e))
    (ccMap cc)

/-- A possible output of `merge_daily` when the `HashMap` value-iteration
order is left unspecified: some permutation of the map's values, each given
its dual metrics, then sorted by label. -/
def mergeDailyOutputs (cc : Option (List CcusagePeriod)) (rtk : List DayStats)
    (out : List PeriodEconomics) : Prop :=
  ∃ vs : List PeriodEconomics, vs.Perm (valuesOf (dailyMap cc rtk)) ∧
    out = sortPeriods (vs.map PeriodEconomics.compute_dual_metrics)

/-- A possible output of `merge_weekly` under an unspecified value-iteration
order. -/
def mergeWeeklyOutputs (cc : Option (List CcusagePeriod)) (rtk : List WeekStats)
    (out : List PeriodEconomics) : Prop :=
  ∃ vs : List PeriodEconomics, vs.Perm (valuesOf (weeklyMap cc rtk)) ∧
    out = sortPeriods (vs.map PeriodEconomics.compute_dual_metrics)

/-- A possible output of `merge_monthly` under an unspecified value-iteration
order. -/
def mergeMonthlyOutputs (cc : Option (List CcusagePeriod))
    (rtk : List MonthStats) (out : List PeriodEconomics) : Prop :=
  ∃ vs : List PeriodEconomics, vs.Perm (valuesOf (monthlyMap cc rtk)) ∧
    out = sortPeriods (vs.map PeriodEconomics.compute_dual_metrics)

/-- Sum of the present `cc_cost` fields (absent contributes zero). -/
def sumCost (ps : List PeriodEconomics) : ℚ :=
  ps.foldl (fun a p => a + (p.cc_cost.getD 0)) 0

/-- Sum of the present `cc_total_tokens` fields. -/
def sumTotalTokens (ps : List PeriodEconomics) : ℕ :=
  ps.foldl (fun a p => a + (p.cc_total_tokens.getD 0)) 0

/-- Sum of the present `cc_active_tokens` fields. -/
def sumActiveTokens (ps : List PeriodEconomics) : ℕ :=
  ps.foldl (fun a p => a + (p.cc_active_tokens.getD 0)) 0

/-- Sum of the present `rtk_commands` fields. -/
def sumCommands (ps : List PeriodEconomics) : ℕ :=
  ps.foldl (fun a p => a + (p.rtk_commands.getD 0)) 0

/-- Sum of the present `rtk_saved_tokens` fields. -/
def sumSaved (ps : List PeriodEconomics) : ℕ :=
  ps.foldl (fun a p => a + (p.rtk_saved_tokens.getD 0)) 0

/-- Sum of the present `rtk_savings_pct` fields (the loop's `pct_sum`). -/
def pctSumOf (ps : List PeriodEconomics) : ℚ :=
  ps.foldl (fun a p => a + (p.rtk_savings_pct.getD 0)) 0

/-- Number of periods reporting `rtk_savings_pct` (the loop's `pct_count`). -/
def pctCountOf (ps : List PeriodEconomics) : ℕ :=
  ps.foldl (fun a p => a + (if p.rtk_savings_pct.isSome then 1 else 0)) 0

/-- The per-record invariant of every map entry before
`compute_dual_metrics` runs: the record's label is its key and no derived
field has been populated yet. -/
def recInv (k : String) (v : PeriodEconomics) : Prop :=
  v.label = k ∧ v.blended_cpt = none ∧ v.active_cpt = none ∧
    v.savings_blended = none ∧ v.savings_active = none

-- ── Order lemmas for the label comparison ──

theorem charListLe_refl (as : List Char) : charListLe as as = true := by
  induction as with
  | nil => rfl
  | cons a as ih => simp [charListLe, ih]

theorem charListLe_total (as bs : List Char) :
    charListLe as bs = true ∨ charListLe bs as = true := by
  induction as generalizing bs with
  | nil => left; rfl
  | cons a as ih =>
    cases bs with
    | nil => right; rfl
    | cons b bs =>
      rcases Nat.lt_trichotomy a.toNat b.toNat with h | h | h
      · left; simp [charListLe, h]
      · have h1 : ¬ a.toNat < b.toNat := by omega
        have h2 : ¬ b.toNat < a.toNat := by omega
        rcases ih bs with ht | ht
        · left; simp [charListLe, h1, h2, ht]
        · right; simp [charListLe, h1, h2, ht]
      · right; simp [charListLe, h]

theorem charListLe_trans {as bs cs : List Char}
    (h1 : charListLe as bs = true) (h2 : charListLe bs cs = true) :
    charListLe as cs = true := by
  induction as generalizing bs cs with
  | nil => rfl
  | cons a as ih =>
    cases bs with
    | nil => simp [charListLe] at h1
    | cons b bs =>
      cases cs with
      | nil => simp [charListLe] at h2
      | cons c cs =>
        simp only [charListLe] at h1 h2 ⊢
        rcases Nat.lt_trichotomy a.toNat b.toNat with hab | hab | hab
        · rcases Nat.lt_trichotomy b.toNat c.toNat with hbc | hbc | hbc
          · have : a.toNat < c.toNat := Nat.lt_trans hab hbc
            simp [this]
          · have : a.toNat < c.toNat := hbc ▸ hab
            simp [this]
          · simp [Nat.not_lt_of_lt hbc, hbc] at h2
        · have h1' : ¬ a.toNat < b.toNat := by omega
          have h1'' : ¬ b.toNat < a.toNat := by omega
          simp only [if_neg h1', if_neg h1''] at h1
          rcases Nat.lt_trichotomy b.toNat c.toNat with hbc | hbc | hbc
          · have : a.toNat < c.toNat := hab ▸ hbc
            simp [this]
          · have hac : a.toNat = c.toNat := hab.trans hbc
            have hx : ¬ a.toNat < c.toNat := by omega
            have hy : ¬ c.toNat < a.toNat := by omega
            have h2' : ¬ b.toNat < c.toNat := by omega
            have h2'' : ¬ c.toNat < b.toNat := by omega
            simp only [if_neg h2', if_neg h2''] at h2
            simp [hx, hy, ih h1 h2]
          · simp [Nat.not_lt_of_lt hbc, hbc] at h2
        · simp [Nat.not_lt_of_lt hab, hab] at h1

theorem char_eq_of_toNat_eq {a b : Char} (h : a.toNat = b.toNat) : a = b :=
  Char.eq_of_val_eq (UInt32.ext h)

theorem charListLe_antisymm {as bs : List Char}
    (h1 : charListLe as bs = true) (h2 : charListLe bs as = true) : as = bs := by
  induction as generalizing bs with
  | nil =>
    cases bs with
    | nil => rfl
    | cons b bs => simp [charListLe] at h2
  | cons a as ih =>
    cases bs with
    | nil => simp [charListLe] at h1
    | cons b bs =>
      simp only [charListLe] at h1 h2
      rcases Nat.lt_trichotomy a.toNat b.toNat with hab | hab | hab
      · simp [Nat.not_lt_of_lt hab, hab] at h2
      · have hx : ¬ a.toNat < b.toNat := by omega
        have hy : ¬ b.toNat < a.toNat := by omega
        simp only [if_neg hx, if_neg hy] at h1
        simp only [if_neg hy, if_neg hx] at h2
        have := ih h1 h2
        rw [char_eq_of_toNat_eq hab, this]
      · simp [Nat.not_lt_of_lt hab, hab] at h1

theorem string_ext {a b : String} (h : a.data = b.data) : a = b := by
  cases a; cases b; exact congrArg String.mk h

instance : IsTotal PeriodEconomics labelLe :=
  ⟨fun a b => charListLe_total a.label.data b.label.data⟩

instance : IsTrans PeriodEconomics labelLe :=
  ⟨fun _ _ _ h1 h2 => charListLe_trans h1 h2⟩

theorem labelLe_antisymm {a b : PeriodEconomics}
    (h1 : labelLe a b) (h2 : labelLe b a) : a.label = b.label :=
  string_ext (charListLe_antisymm h1 h2)



-- ── Association-list map lemmas ──

theorem mapUpdate_cons (k0 : String) (v0 : PeriodEconomics)
    (rest : EconMap) (k : String) (f : PeriodEconomics → PeriodEconomics) :
    mapUpdate ((k0, v0) :: rest) k f =
      if k0 = k then (k0, f v0) :: rest
      else (k0, v0) :: mapUpdate rest k f := rfl

theorem lookupMap_cons (k0 : String) (v0 : PeriodEconomics)
    (rest : EconMap) (k : String) :
    lookupMap ((k0, v0) :: rest) k =
      if k0 = k then some v0 else lookupMap rest k := rfl

theorem mem_keysOf_mapUpdate {m : EconMap} {k k' : String}
    {f : PeriodEconomics → PeriodEconomics} :
    k' ∈ keysOf (mapUpdate m k f) ↔ k' = k ∨ k' ∈ keysOf m := by
  induction m with
  | nil => simp [mapUpdate, keysOf]
  | cons kv rest ih =>
    obtain ⟨k0, v0⟩ := kv
    rw [mapUpdate_cons]
    by_cases h : k0 = k
    · rw [if_pos h]
      subst h
      simp only [keysOf, List.map_cons, List.mem_cons]
      tauto
    · rw [if_neg h]
      simp only [keysOf, List.map_cons, List.mem_cons] at ih ⊢
      rw [ih]
      tauto

theorem keysOf_nodup_mapUpdate {m : EconMap} {k : String}
    {f : PeriodEconomics → PeriodEconomics} (h : (keysOf m).Nodup) :
    (keysOf (mapUpdate m k f)).Nodup := by
  induction m with
  | nil => simp [mapUpdate, keysOf]
  | cons kv rest ih =>
    obtain ⟨k0, v0⟩ := kv
    simp only [keysOf, List.map_cons, List.nodup_cons] at h
    rw [mapUpdate_cons]
    by_cases hk : k0 = k
    · rw [if_pos hk]
      simp only [keysOf, List.map_cons, List.nodup_cons]
      exact h
    · rw [if_neg hk]
      simp only [keysOf, List.map_cons, List.nodup_cons]
      refine ⟨fun hmem => ?_, ih h.2⟩
      rcases mem_keysOf_mapUpdate.1 hmem with h1 | h1
      · exact hk h1
      · exact h.1 h1

theorem lookupMap_mapUpdate_self {m : EconMap} {k : String}
    {f : PeriodEconomics → PeriodEconomics} :
    lookupMap (mapUpdate m k f) k =
      some (f ((lookupMap m k).getD (PeriodEconomics.new k))) := by
  induction m with
  | nil => simp [mapUpdate, lookupMap]
  | cons kv rest ih =>
    obtain ⟨k0, v0⟩ := kv
    rw [mapUpdate_cons, lookupMap_cons]
    by_cases hk : k0 = k
    · rw [if_pos hk, if_pos hk, lookupMap_cons, if_pos hk]
      rfl
    · rw [if_neg hk, if_neg hk, lookupMap_cons, if_neg hk]
      exact ih

theorem lookupMap_mapUpdate_ne {m : EconMap} {k k' : String}
    {f : PeriodEconomics → PeriodEconomics} (h : k' ≠ k) :
    lookupMap (mapUpdate m k f) k' = lookupMap m k' := by
  have h' : ¬ (k = k') := fun hh => h hh.symm
  induction m with
  | nil =>
    simp only [mapUpdate, lookupMap]
    rw [if_neg h']
  | cons kv rest ih =>
    obtain ⟨k0, v0⟩ := kv
    rw [mapUpdate_cons]
    by_cases hk : k0 = k
    · rw [if_pos hk, lookupMap_cons, lookupMap_cons]
      have : ¬ (k0 = k') := fun hh => h' (hk ▸ hh)
      rw [if_neg this, if_neg this]
    · rw [if_neg hk, lookupMap_cons, lookupMap_cons]
      by_cases hk' : k0 = k'
      · rw [if_pos hk', if_pos hk']
      · rw [if_neg hk', if_neg hk']
        exact ih

theorem lookupMap_isSome_iff_mem_keys {m : EconMap} {k : String} :
    (lookupMap m k).isSome = true ↔ k ∈ keysOf m := by
  induction m with
  | nil => simp [lookupMap, keysOf]
  | cons kv rest ih =>
    obtain ⟨k0, v0⟩ := kv
    rw [lookupMap_cons]
    by_cases hk : k0 = k
    · rw [if_pos hk]
      subst hk
      simp [keysOf]
    · rw [if_neg hk]
      simp only [keysOf, List.map_cons, List.mem_cons] at ih ⊢
      rw [ih]
      have : ¬ (k = k0) := fun hh => hk hh.symm
      tauto

theorem lookupMap_eq_some_of_mem {m : EconMap} {k : String}
    {v : PeriodEconomics} (hnd : (keysOf m).Nodup) (hmem : (k, v) ∈ m) :
    lookupMap m k = some v := by
  induction m with
  | nil => simp at hmem
  | cons kv rest ih =>
    obtain ⟨k0, v0⟩ := kv
    simp only [keysOf, List.map_cons, List.nodup_cons] at hnd
    rw [lookupMap_cons]
    rcases List.mem_cons.1 hmem with h | h
    · injection h with h1 h2
      subst h1
      subst h2
      rw [if_pos rfl]
    · have hne : ¬ (k0 = k) := by
        intro hq
        subst hq
        exact hnd.1 (List.mem_map.2 ⟨(k0, v), h, rfl⟩)
      rw [if_neg hne]
      exact ih hnd.2 h

theorem mem_of_lookupMap_eq_some {m : EconMap} {k : String}
    {v : PeriodEconomics} (h : lookupMap m k = some v) : (k, v) ∈ m := by
  induction m with
  | nil => simp [lookupMap] at h
  | cons kv rest ih =>
    obtain ⟨k0, v0⟩ := kv
    rw [lookupMap_cons] at h
    by_cases hk : k0 = k
    · rw [if_pos hk] at h
      injection h with h1
      subst hk
      subst h1
      exact List.mem_cons_self _ _
    · rw [if_neg hk] at h
      exact List.mem_cons_of_mem _ (ih h)

theorem mapUpdate_forall {Q : String → PeriodEconomics → Prop} {m : EconMap}
    {k : String} {f : PeriodEconomics → PeriodEconomics}
    (hm : ∀ kv ∈ m, Q kv.1 kv.2) (hf : ∀ v, Q k v → Q k (f v))
    (hnew : Q k (f (PeriodEconomics.new k))) :
    ∀ kv ∈ mapUpdate m k f, Q kv.1 kv.2 := by
  induction m with
  | nil =>
    intro kv hkv
    simp only [mapUpdate, List.mem_singleton] at hkv
    subst hkv
    exact hnew
  | cons kv0 rest ih =>
    obtain ⟨k0, v0⟩ := kv0
    rw [mapUpdate_cons]
    by_cases hk : k0 = k
    · rw [if_pos hk]
      subst hk
      intro kv hkv
      rcases List.mem_cons.1 hkv with rfl | hkv
      · exact hf v0 (hm (k0, v0) (List.mem_cons_self _ _))
      · exact hm kv (List.mem_cons_of_mem _ hkv)
    · rw [if_neg hk]
      intro kv hkv
      rcases List.mem_cons.1 hkv with rfl | hkv
      · exact hm (k0, v0) (List.mem_cons_self _ _)
      · exact ih (fun kv h => hm kv (List.mem_cons_of_mem _ h)) kv hkv

-- ── Generic lemmas about merge folds ──

theorem stepFn_none {α : Type} {κ : α → Option String}
    {φ : α → PeriodEconomics → PeriodEconomics} {m : EconMap} {e : α}
    (h : κ e = none) : stepFn κ φ m e = m := by
  simp [stepFn, h]

theorem stepFn_some {α : Type} {κ : α → Option String}
    {φ : α → PeriodEconomics → PeriodEconomics} {m : EconMap} {e : α}
    {k : String} (h : κ e = some k) : stepFn κ φ m e = mapUpdate m k (φ e) := by
  simp [stepFn, h]

theorem foldl_stepFn_mem_keys {α : Type} (κ : α → Option String)
    (φ : α → PeriodEconomics → PeriodEconomics) (l : List α) (m : EconMap)
    (k : String) :
    k ∈ keysOf (l.foldl (stepFn κ φ) m) ↔
      k ∈ keysOf m ∨ k ∈ l.filterMap κ := by
  induction l generalizing m with
  | nil => simp
  | cons e rest ih =>
    rw [List.foldl_cons]
    cases hκ : κ e with
    | none =>
      rw [stepFn_none hκ, ih]
      simp only [List.filterMap_cons, hκ]
    | some k0 =>
      rw [stepFn_some hκ, ih]
      simp only [List.filterMap_cons, hκ, List.mem_cons]
      rw [mem_keysOf_mapUpdate]
      tauto

theorem foldl_stepFn_nodup {α : Type} (κ : α → Option String)
    (φ : α → PeriodEconomics → PeriodEconomics) (l : List α) (m : EconMap)
    (h : (keysOf m).Nodup) :
    (keysOf (l.foldl (stepFn κ φ) m)).Nodup := by
  induction l generalizing m with
  | nil => exact h
  | cons e rest ih =>
    rw [List.foldl_cons]
    cases hκ : κ e with
    | none => rw [stepFn_none hκ]; exact ih _ h
    | some k0 => rw [stepFn_some hκ]; exact ih _ (keysOf_nodup_mapUpdate h)

theorem foldl_stepFn_forall {α : Type} {Q : String → PeriodEconomics → Prop}
    (κ : α → Option String) (φ : α → PeriodEconomics → PeriodEconomics)
    (l : List α) (m : EconMap)
    (hm : ∀ kv ∈ m, Q kv.1 kv.2)
    (hf : ∀ e k v, κ e = some k → Q k v → Q k (φ e v))
    (hnew : ∀ e k, κ e = some k → Q k (φ e (PeriodEconomics.new k))) :
    ∀ kv ∈ l.foldl (stepFn κ φ) m, Q kv.1 kv.2 := by
  induction l generalizing m with
  | nil => exact hm
  | cons e rest ih =>
    rw [List.foldl_cons]
    cases hκ : κ e with
    | none => rw [stepFn_none hκ]; exact ih _ hm
    | some k0 =>
      rw [stepFn_some hκ]
      exact ih _ (mapUpdate_forall hm (fun v hv => hf e k0 v hκ hv)
        (hnew e k0 hκ))

theorem foldl_stepFn_untouched {α : Type} (κ : α → Option String)
    (φ : α → PeriodEconomics → PeriodEconomics) (l : List α) (m : EconMap)
    (k : String) (h : ∀ e ∈ l, κ e ≠ some k) :
    lookupMap (l.foldl (stepFn κ φ) m) k = lookupMap m k := by
  induction l generalizing m with
  | nil => rfl
  | cons e rest ih =>
    rw [List.foldl_cons]
    cases hκ : κ e with
    | none =>
      rw [stepFn_none hκ]
      exact ih _ (fun e' he' => h e' (List.mem_cons_of_mem _ he'))
    | some k0 =>
      rw [stepFn_some hκ]
      have hk0 : k ≠ k0 := by
        intro hq
        exact h e (List.mem_cons_self _ _) (hq ▸ hκ)
      rw [ih _ (fun e' he' => h e' (List.mem_cons_of_mem _ he'))]
      exact lookupMap_mapUpdate_ne hk0

theorem foldl_stepFn_view_preserved {α V : Type} (κ : α → Option String)
    (φ : α → PeriodEconomics → PeriodEconomics) (view : PeriodEconomics → V)
    (hφ : ∀ e p, view (φ e p) = view p) (l : List α) (m : EconMap)
    (k : String) (p : PeriodEconomics) (h : lookupMap m k = some p) :
    ∃ q, lookupMap (l.foldl (stepFn κ φ) m) k = some q ∧ view q = view p := by
  induction l generalizing m p with
  | nil => exact ⟨p, h, rfl⟩
  | cons e rest ih =>
    rw [List.foldl_cons]
    cases hκ : κ e with
    | none => rw [stepFn_none hκ]; exact ih _ _ h
    | some k0 =>
      rw [stepFn_some hκ]
      by_cases hk : k = k0
      · subst hk
        have : lookupMap (mapUpdate m k (φ e)) k =
            some (φ e ((lookupMap m k).getD (PeriodEconomics.new k))) :=
          lookupMap_mapUpdate_self
        rw [h] at this
        obtain ⟨q, hq1, hq2⟩ := ih (mapUpdate m k (φ e)) (φ e p) this
        exact ⟨q, hq1, hq2.trans (hφ e p)⟩
      · have : lookupMap (mapUpdate m k0 (φ e)) k = some p :=
          (lookupMap_mapUpdate_ne hk).trans h
        exact ih _ _ this

-- ── The merge maps as generic folds ──

theorem ccMap_some_eq (l : List CcusagePeriod) :
    ccMap (some l) =
      l.foldl (stepFn (fun e => some e.key)
        (fun e p => p.set_ccusage e.metrics)) [] := rfl

theorem dailyMap_eq (cc : Option (List CcusagePeriod)) (rtk : List DayStats) :
    dailyMap cc rtk =
      rtk.foldl (stepFn (fun e => some e.date)
        (fun e p => p.set_rtk_from_day e)) (ccMap cc) := rfl

theorem weeklyMap_eq (cc : Option (List CcusagePeriod)) (rtk : List WeekStats) :
    weeklyMap cc rtk =
      rtk.foldl (stepFn (fun e => convert_saturday_to_monday e.week_start)
        (fun e p => p.set_rtk_from_week e)) (ccMap cc) := rfl

theorem monthlyMap_eq (cc : Option (List CcusagePeriod))
    (rtk : List MonthStats) :
    monthlyMap cc rtk =
      rtk.foldl (stepFn (fun e => some e.month)
        (fun e p => p.set_rtk_from_month e)) (ccMap cc) := rfl

theorem merge_daily_eq (cc : Option (List CcusagePeriod))
    (rtk : List DayStats) : merge_daily cc rtk = finalize (dailyMap cc rtk) :=
  rfl

theorem merge_weekly_eq (cc : Option (List CcusagePeriod))
    (rtk : List WeekStats) :
    merge_weekly cc rtk = finalize (weeklyMap cc rtk) := rfl

theorem merge_monthly_eq (cc : Option (List CcusagePeriod))
    (rtk : List MonthStats) :
    merge_monthly cc rtk = finalize (monthlyMap cc rtk) := rfl

-- ── The pre-metrics record invariant ──

theorem recInv_new (k : String) : recInv k (PeriodEconomics.new k) := by
  exact ⟨rfl, rfl, rfl, rfl, rfl⟩

theorem recInv_set_ccusage {k : String} {v : PeriodEconomics}
    {mm : CcusageMetrics} (h : recInv k v) : recInv k (v.set_ccusage mm) := h

theorem recInv_set_rtk_from_day {k : String} {v : PeriodEconomics}
    {s : DayStats} (h : recInv k v) : recInv k (v.set_rtk_from_day s) := h

theorem recInv_set_rtk_from_week {k : String} {v : PeriodEconomics}
    {s : WeekStats} (h : recInv k v) : recInv k (v.set_rtk_from_week s) := h

theorem recInv_set_rtk_from_month {k : String} {v : PeriodEconomics}
    {s : MonthStats} (h : recInv k v) : recInv k (v.set_rtk_from_month s) := h

theorem ccMap_inv (cc : Option (List CcusagePeriod)) :
    ∀ kv ∈ ccMap cc, recInv kv.1 kv.2 := by
  cases cc with
  | none => intro kv hkv; simp [ccMap] at hkv
  | some l =>
    rw [ccMap_some_eq]
    refine foldl_stepFn_forall _ _ _ _ (by simp) ?_ ?_
    · intro e k v hk hv
      exact recInv_set_ccusage hv
    · intro e k hk
      exact recInv_set_ccusage (recInv_new k)

theorem ccMap_nodup (cc : Option (List CcusagePeriod)) :
    (keysOf (ccMap cc)).Nodup := by
  cases cc with
  | none => simp [ccMap, keysOf]
  | some l =>
    rw [ccMap_some_eq]
    exact foldl_stepFn_nodup _ _ _ _ (by simp [keysOf])

theorem mem_keys_ccMap (cc : Option (List CcusagePeriod)) (k : String) :
    k ∈ keysOf (ccMap cc) ↔ k ∈ ccKeys cc := by
  cases cc with
  | none => simp [ccMap, ccKeys, keysOf]
  | some l =>
    rw [ccMap_some_eq, foldl_stepFn_mem_keys]
    simp [ccKeys, keysOf, List.filterMap_eq_map]

theorem dailyMap_inv (cc : Option (List CcusagePeriod)) (rtk : List DayStats) :
    ∀ kv ∈ dailyMap cc rtk, recInv kv.1 kv.2 := by
  rw [dailyMap_eq]
  refine foldl_stepFn_forall _ _ _ _ (ccMap_inv cc) ?_ ?_
  · intro e k v hk hv
    exact recInv_set_rtk_from_day hv
  · intro e k hk
    exact recInv_set_rtk_from_day (recInv_new k)

theorem weeklyMap_inv (cc : Option (List CcusagePeriod))
    (rtk : List WeekStats) : ∀ kv ∈ weeklyMap cc rtk, recInv kv.1 kv.2 := by
  rw [weeklyMap_eq]
  refine foldl_stepFn_forall _ _ _ _ (ccMap_inv cc) ?_ ?_
  · intro e k v hk hv
    exact recInv_set_rtk_from_week hv
  · intro e k hk
    exact recInv_set_rtk_from_week (recInv_new k)

theorem monthlyMap_inv (cc : Option (List CcusagePeriod))
    (rtk : List MonthStats) : ∀ kv ∈ monthlyMap cc rtk, recInv kv.1 kv.2 := by
  rw [monthlyMap_eq]
  refine foldl_stepFn_forall _ _ _ _ (ccMap_inv cc) ?_ ?_
  · intro e k v hk hv
    exact recInv_set_rtk_from_month hv
  · intro e k hk
    exact recInv_set_rtk_from_month (recInv_new k)

theorem dailyMap_nodup (cc : Option (List CcusagePeriod))
    (rtk : List DayStats) : (keysOf (dailyMap cc rtk)).Nodup := by
  rw [dailyMap_eq]
  exact foldl_stepFn_nodup _ _ _ _ (ccMap_nodup cc)

theorem weeklyMap_nodup (cc : Option (List CcusagePeriod))
    (rtk : List WeekStats) : (keysOf (weeklyMap cc rtk)).Nodup := by
  rw [weeklyMap_eq]
  exact foldl_stepFn_nodup _ _ _ _ (ccMap_nodup cc)

theorem monthlyMap_nodup (cc : Option (List CcusagePeriod))
    (rtk : List MonthStats) : (keysOf (monthlyMap cc rtk)).Nodup := by
  rw [monthlyMap_eq]
  exact foldl_stepFn_nodup _ _ _ _ (ccMap_nodup cc)

theorem mem_keys_dailyMap (cc : Option (List CcusagePeriod))
    (rtk : List DayStats) (k : String) :
    k ∈ keysOf (dailyMap cc rtk) ↔ k ∈ dailyKeys cc rtk := by
  rw [dailyMap_eq, foldl_stepFn_mem_keys, mem_keys_ccMap]
  simp [dailyKeys, List.filterMap_eq_map]

theorem mem_keys_weeklyMap (cc : Option (List CcusagePeriod))
    (rtk : List WeekStats) (k : String) :
    k ∈ keysOf (weeklyMap cc rtk) ↔ k ∈ weeklyKeys cc rtk := by
  rw [weeklyMap_eq, foldl_stepFn_mem_keys, mem_keys_ccMap]
  simp [weeklyKeys]

theorem mem_keys_monthlyMap (cc : Option (List CcusagePeriod))
    (rtk : List MonthStats) (k : String) :
    k ∈ keysOf (monthlyMap cc rtk) ↔ k ∈ monthlyKeys cc rtk := by
  rw [monthlyMap_eq, foldl_stepFn_mem_keys, mem_keys_ccMap]
  simp [monthlyKeys, List.filterMap_eq_map]

-- ── Characterization of compute_dual_metrics ──

theorem cdm_label (p : PeriodEconomics) :
    (p.compute_dual_metrics).label = p.label := by
  obtain ⟨lab, c, tt, ta, cm, sv, pc, b, a, sb, sa⟩ := p
  cases c <;> cases sv <;> cases tt <;> cases ta <;>
    dsimp only [PeriodEconomics.compute_dual_metrics] <;>
    (first | rfl | (split_ifs <;> rfl))

theorem cdm_cc_cost (p : PeriodEconomics) :
    (p.compute_dual_metrics).cc_cost = p.cc_cost := by
  obtain ⟨lab, c, tt, ta, cm, sv, pc, b, a, sb, sa⟩ := p
  cases c <;> cases sv <;> cases tt <;> cases ta <;>
    dsimp only [PeriodEconomics.compute_dual_metrics] <;>
    (first | rfl | (split_ifs <;> rfl))

theorem cdm_cc_total_tokens (p : PeriodEconomics) :
    (p.compute_dual_metrics).cc_total_tokens = p.cc_total_tokens := by
  obtain ⟨lab, c, tt, ta, cm, sv, pc, b, a, sb, sa⟩ := p
  cases c <;> cases sv <;> cases tt <;> cases ta <;>
    dsimp only [PeriodEconomics.compute_dual_metrics] <;>
    (first | rfl | (split_ifs <;> rfl))

theorem cdm_cc_active_tokens (p : PeriodEconomics) :
    (p.compute_dual_metrics).cc_active_tokens = p.cc_active_tokens := by
  obtain ⟨lab, c, tt, ta, cm, sv, pc, b, a, sb, sa⟩ := p
  cases c <;> cases sv <;> cases tt <;> cases ta <;>
    dsimp only [PeriodEconomics.compute_dual_metrics] <;>
    (first | rfl | (split_ifs <;> rfl))

theorem cdm_rtk_commands (p : PeriodEconomics) :
    (p.compute_dual_metrics).rtk_commands = p.rtk_commands := by
  obtain ⟨lab, c, tt, ta, cm, sv, pc, b, a, sb, sa⟩ := p
  cases c <;> cases sv <;> cases tt <;> cases ta <;>
    dsimp only [PeriodEconomics.compute_dual_metrics] <;>
    (first | rfl | (split_ifs <;> rfl))

theorem cdm_rtk_saved_tokens (p : PeriodEconomics) :
    (p.compute_dual_metrics).rtk_saved_tokens = p.rtk_saved_tokens := by
  obtain ⟨lab, c, tt, ta, cm, sv, pc, b, a, sb, sa⟩ := p
  cases c <;> cases sv <;> cases tt <;> cases ta <;>
    dsimp only [PeriodEconomics.compute_dual_metrics] <;>
    (first | rfl | (split_ifs <;> rfl))

theorem cdm_rtk_savings_pct (p : PeriodEconomics) :
    (p.compute_dual_metrics).rtk_savings_pct = p.rtk_savings_pct := by
  obtain ⟨lab, c, tt, ta, cm, sv, pc, b, a, sb, sa⟩ := p
  cases c <;> cases sv <;> cases tt <;> cases ta <;>
    dsimp only [PeriodEconomics.compute_dual_metrics] <;>
    (first | rfl | (split_ifs <;> rfl))

theorem cdm_blended_cpt_eq (p : PeriodEconomics) (hb : p.blended_cpt = none) :
    (p.compute_dual_metrics).blended_cpt =
      (match p.cc_cost, p.rtk_saved_tokens, p.cc_total_tokens with
       | some c, some _, some t => if 0 < t then some (c / (t : ℚ)) else none
       | _, _, _ => none) := by
  obtain ⟨lab, c, tt, ta, cm, sv, pc, b, a, sb, sa⟩ := p
  subst hb
  cases c <;> cases sv <;> cases tt <;> cases ta <;>
    dsimp only [PeriodEconomics.compute_dual_metrics] <;>
    (first | rfl | (split_ifs <;> rfl))

theorem cdm_savings_blended_eq (p : PeriodEconomics)
    (hsb : p.savings_blended = none) :
    (p.compute_dual_metrics).savings_blended =
      (match p.cc_cost, p.rtk_saved_tokens, p.cc_total_tokens with
       | some c, some s, some t =>
         if 0 < t then some ((s : ℚ) * (c / (t : ℚ))) else none
       | _, _, _ => none) := by
  obtain ⟨lab, c, tt, ta, cm, sv, pc, b, a, sb, sa⟩ := p
  subst hsb
  cases c <;> cases sv <;> cases tt <;> cases ta <;>
    dsimp only [PeriodEconomics.compute_dual_metrics] <;>
    (first | rfl | (split_ifs <;> rfl))

theorem cdm_active_cpt_eq (p : PeriodEconomics) (ha : p.active_cpt = none) :
    (p.compute_dual_metrics).active_cpt =
      (match p.cc_cost, p.rtk_saved_tokens, p.cc_active_tokens with
       | some c, some _, some t => if 0 < t then some (c / (t : ℚ)) else none
       | _, _, _ => none) := by
  obtain ⟨lab, c, tt, ta, cm, sv, pc, b, a, sb, sa⟩ := p
  subst ha
  cases c <;> cases sv <;> cases tt <;> cases ta <;>
    dsimp only [PeriodEconomics.compute_dual_metrics] <;>
    (first | rfl | (split_ifs <;> rfl))

theorem cdm_savings_active_eq (p : PeriodEconomics)
    (hsa : p.savings_active = none) :
    (p.compute_dual_metrics).savings_active =
      (match p.cc_cost, p.rtk_saved_tokens, p.cc_active_tokens with
       | some c, some s, some t =>
         if 0 < t then some ((s : ℚ) * (c / (t : ℚ))) else none
       | _, _, _ => none) := by
  obtain ⟨lab, c, tt, ta, cm, sv, pc, b, a, sb, sa⟩ := p
  subst hsa
  cases c <;> cases sv <;> cases tt <;> cases ta <;>
    dsimp only [PeriodEconomics.compute_dual_metrics] <;>
    (first | rfl | (split_ifs <;> rfl))

-- ── Sorting and finalize ──

theorem sortPeriods_perm (l : List PeriodEconomics) : (sortPeriods l).Perm l :=
  List.perm_insertionSort labelLe l

theorem sortPeriods_sorted (l : List PeriodEconomics) :
    (sortPeriods l).Pairwise labelLe :=
  List.sorted_insertionSort labelLe l

theorem mem_finalize {m : EconMap} {r : PeriodEconomics} :
    r ∈ finalize m ↔ ∃ kv ∈ m, r = (kv.2).compute_dual_metrics := by
  unfold finalize
  rw [(sortPeriods_perm _).mem_iff]
  simp only [List.mem_map, valuesOf]
  constructor
  · rintro ⟨v, ⟨kv, hkv, rfl⟩, rfl⟩
    exact ⟨kv, hkv, rfl⟩
  · rintro ⟨kv, hkv, rfl⟩
    exact ⟨kv.2, ⟨kv, hkv, rfl⟩, rfl⟩

theorem finalize_labels_perm {m : EconMap}
    (hinv : ∀ kv ∈ m, recInv kv.1 kv.2) :
    ((finalize m).map (fun r => r.label)).Perm (keysOf m) := by
  unfold finalize
  refine ((sortPeriods_perm _).map _).trans ?_
  rw [List.map_map, valuesOf, List.map_map]
  have : m.map (((fun r => r.label) ∘ PeriodEconomics.compute_dual_metrics) ∘
      Prod.snd) = m.map Prod.fst := by
    refine List.map_eq_map_iff.mpr ?_
    intro kv hkv
    simp only [Function.comp_apply]
    rw [cdm_label]
    exact (hinv kv hkv).1
  rw [this]
  exact List.Perm.refl _

theorem finalize_labels_nodup {m : EconMap}
    (hinv : ∀ kv ∈ m, recInv kv.1 kv.2) (hnd : (keysOf m).Nodup) :
    ((finalize m).map (fun r => r.label)).Nodup :=
  ((finalize_labels_perm hinv).nodup_iff).mpr hnd

theorem finalize_sorted (m : EconMap) : (finalize m).Pairwise labelLe :=
  sortPeriods_sorted _

theorem pairwise_strict_of_sorted_nodup {l : List PeriodEconomics}
    (hs : l.Pairwise labelLe) (hnd : (l.map (fun r => r.label)).Nodup) :
    l.Pairwise (fun a b => labelLe a b ∧ a.label ≠ b.label) := by
  have hne : l.Pairwise (fun a b => a.label ≠ b.label) :=
    List.pairwise_map.mp hnd
  exact hs.and hne

theorem eq_of_perm_sorted :
    ∀ {l1 l2 : List PeriodEconomics}, l1.Perm l2 → l1.Pairwise labelLe →
      l2.Pairwise labelLe → (l1.map (fun r => r.label)).Nodup → l1 = l2 := by
  intro l1
  induction l1 with
  | nil =>
    intro l2 hp _ _ _
    exact (hp.nil_eq).symm ▸ rfl
  | cons a t1 ih =>
    intro l2 hp hs1 hs2 hnd
    cases l2 with
    | nil => exact absurd hp.symm.nil_eq (by simp)
    | cons b t2 =>
      have hmem_b : b ∈ a :: t1 := hp.symm.subset (List.mem_cons_self b t2)
      have hmem_a : a ∈ b :: t2 := hp.subset (List.mem_cons_self a t1)
      obtain ⟨ha1, hs1t⟩ := List.pairwise_cons.1 hs1
      obtain ⟨hb2, hs2t⟩ := List.pairwise_cons.1 hs2
      rw [List.map_cons] at hnd
      obtain ⟨hnd1, hndt⟩ := List.nodup_cons.1 hnd
      have hab : a = b := by
        rcases List.mem_cons.1 hmem_b with h | hbt1
        · exact h.symm
        · rcases List.mem_cons.1 hmem_a with h | hat2
          · exact h
          · have h1 : labelLe a b := ha1 b hbt1
            have h2 : labelLe b a := hb2 a hat2
            have heq : a.label = b.label := labelLe_antisymm h1 h2
            have hmm : b.label ∈ t1.map (fun r : PeriodEconomics => r.label) :=
              List.mem_map_of_mem _ hbt1
            rw [← heq] at hmm
            exact absurd hmm hnd1
      subst hab
      have hpt : t1.Perm t2 := hp.cons_inv
      have : t1 = t2 := ih hpt hs1t hs2t hndt
      rw [this]

-- ── Totals characterization ──

theorem foldl_add_shift {M α : Type} [AddCommMonoid M] (f : α → M) :
    ∀ (l : List α) (c : M),
      l.foldl (fun a x => a + f x) c = c + l.foldl (fun a x => a + f x) 0 := by
  intro l
  induction l with
  | nil => intro c; simp
  | cons e rest ih =>
    intro c
    rw [List.foldl_cons, List.foldl_cons, ih (c + f e), ih (0 + f e)]
    rw [zero_add, add_assoc]

theorem sumCost_cons (p : PeriodEconomics) (ps : List PeriodEconomics) :
    sumCost (p :: ps) = p.cc_cost.getD 0 + sumCost ps := by
  unfold sumCost
  rw [List.foldl_cons, foldl_add_shift (fun p : PeriodEconomics =>
    p.cc_cost.getD 0), zero_add]

theorem sumTotalTokens_cons (p : PeriodEconomics) (ps : List PeriodEconomics) :
    sumTotalTokens (p :: ps) =
      p.cc_total_tokens.getD 0 + sumTotalTokens ps := by
  unfold sumTotalTokens
  rw [List.foldl_cons, foldl_add_shift (fun p : PeriodEconomics =>
    p.cc_total_tokens.getD 0), zero_add]

theorem sumActiveTokens_cons (p : PeriodEconomics)
    (ps : List PeriodEconomics) :
    sumActiveTokens (p :: ps) =
      p.cc_active_tokens.getD 0 + sumActiveTokens ps := by
  unfold sumActiveTokens
  rw [List.foldl_cons, foldl_add_shift (fun p : PeriodEconomics =>
    p.cc_active_tokens.getD 0), zero_add]

theorem sumSaved_cons (p : PeriodEconomics) (ps : List PeriodEconomics) :
    sumSaved (p :: ps) = p.rtk_saved_tokens.getD 0 + sumSaved ps := by
  unfold sumSaved
  rw [List.foldl_cons, foldl_add_shift (fun p : PeriodEconomics =>
    p.rtk_saved_tokens.getD 0), zero_add]

theorem sumCommands_cons (p : PeriodEconomics) (ps : List PeriodEconomics) :
    sumCommands (p :: ps) = p.rtk_commands.getD 0 + sumCommands ps := by
  unfold sumCommands
  rw [List.foldl_cons, foldl_add_shift (fun p : PeriodEconomics =>
    p.rtk_commands.getD 0), zero_add]

theorem pctSumOf_cons (p : PeriodEconomics) (ps : List PeriodEconomics) :
    pctSumOf (p :: ps) = p.rtk_savings_pct.getD 0 + pctSumOf ps := by
  unfold pctSumOf
  rw [List.foldl_cons, foldl_add_shift (fun p : PeriodEconomics =>
    p.rtk_savings_pct.getD 0), zero_add]

theorem pctCountOf_cons (p : PeriodEconomics) (ps : List PeriodEconomics) :
    pctCountOf (p :: ps) =
      (if p.rtk_savings_pct.isSome then 1 else 0) + pctCountOf ps := by
  unfold pctCountOf
  rw [List.foldl_cons, foldl_add_shift (fun p : PeriodEconomics =>
    if p.rtk_savings_pct.isSome then 1 else 0), zero_add]

theorem totalsStep_eq (acc : Totals × ℚ × ℕ) (p : PeriodEconomics) :
    totalsStep acc p =
      ({ acc.1 with
          cc_cost := acc.1.cc_cost + p.cc_cost.getD 0
          cc_total_tokens := acc.1.cc_total_tokens + p.cc_total_tokens.getD 0
          cc_active_tokens :=
            acc.1.cc_active_tokens + p.cc_active_tokens.getD 0
          rtk_commands := acc.1.rtk_commands + p.rtk_commands.getD 0
          rtk_saved_tokens :=
            acc.1.rtk_saved_tokens + p.rtk_saved_tokens.getD 0 },
       acc.2.1 + p.rtk_savings_pct.getD 0,
       acc.2.2 + if p.rtk_savings_pct.isSome then 1 else 0) := by
  obtain ⟨t, s, n⟩ := acc
  obtain ⟨lab, c, tt, ta, cm, sv, pc, b, a, sb, sa⟩ := p
  cases c <;> cases tt <;> cases ta <;> cases cm <;> cases sv <;> cases pc <;>
    simp [totalsStep]

theorem foldl_totalsStep_eq (ps : List PeriodEconomics) :
    ∀ acc : Totals × ℚ × ℕ,
      ps.foldl totalsStep acc =
        ({ acc.1 with
            cc_cost := acc.1.cc_cost + sumCost ps
            cc_total_tokens := acc.1.cc_total_tokens + sumTotalTokens ps
            cc_active_tokens := acc.1.cc_active_tokens + sumActiveTokens ps
            rtk_commands := acc.1.rtk_commands + sumCommands ps
            rtk_saved_tokens := acc.1.rtk_saved_tokens + sumSaved ps },
         acc.2.1 + pctSumOf ps, acc.2.2 + pctCountOf ps) := by
  induction ps with
  | nil =>
    intro acc
    simp [sumCost, sumTotalTokens, sumActiveTokens, sumCommands, sumSaved,
      pctSumOf, pctCountOf]
  | cons p ps ih =>
    intro acc
    rw [List.foldl_cons, totalsStep_eq, ih]
    rw [sumCost_cons, sumTotalTokens_cons, sumActiveTokens_cons,
      sumCommands_cons, sumSaved_cons, pctSumOf_cons, pctCountOf_cons]
    simp [add_assoc]

theorem compute_totals_spec (ps : List PeriodEconomics) :
    (compute_totals ps).cc_cost = sumCost ps ∧
    (compute_totals ps).cc_total_tokens = sumTotalTokens ps ∧
    (compute_totals ps).cc_active_tokens = sumActiveTokens ps ∧
    (compute_totals ps).rtk_commands = sumCommands ps ∧
    (compute_totals ps).rtk_saved_tokens = sumSaved ps ∧
    (compute_totals ps).rtk_avg_savings_pct =
      (if 0 < pctCountOf ps then pctSumOf ps / (pctCountOf ps : ℚ) else 0) ∧
    (compute_totals ps).blended_cpt =
      (if 0 < sumTotalTokens ps then
        some (sumCost ps / (sumTotalTokens ps : ℚ)) else none) ∧
    (compute_totals ps).savings_blended =
      (if 0 < sumTotalTokens ps then
        some ((sumSaved ps : ℚ) * (sumCost ps / (sumTotalTokens ps : ℚ)))
      else none) ∧
    (compute_totals ps).active_cpt =
      (if 0 < sumActiveTokens ps then
        some (sumCost ps / (sumActiveTokens ps : ℚ)) else none) ∧
    (compute_totals ps).savings_active =
      (if 0 < sumActiveTokens ps then
        some ((sumSaved ps : ℚ) * (sumCost ps / (sumActiveTokens ps : ℚ)))
      else none) := by
  unfold compute_totals
  rw [foldl_totalsStep_eq]
  by_cases h1 : 0 < pctCountOf ps <;> by_cases h2 : 0 < sumTotalTokens ps <;>
    by_cases h3 : 0 < sumActiveTokens ps <;>
      simp [h1, h2, h3, totalsInit]

-- ── Last-write-wins lemmas for duplicate keys ──

theorem lastCc_none_iff (l : List CcusagePeriod) (k : String) :
    lastCc l k = none ↔ ∀ e ∈ l, e.key ≠ k := by
  induction l with
  | nil => simp [lastCc]
  | cons e rest ih =>
    simp only [lastCc]
    cases hrest : lastCc rest k with
    | some w =>
      simp only []
      constructor
      · intro h; exact absurd h (by simp)
      · intro h
        exact absurd (ih.2 (fun e' he' => h e' (List.mem_cons_of_mem _ he')))
          (by simp [hrest])
    | none =>
      simp only []
      by_cases hk : e.key = k
      · simp only [if_pos hk]
        constructor
        · intro h; exact absurd h (by simp)
        · intro h; exact absurd hk (h e (List.mem_cons_self _ _))
      · simp only [if_neg hk]
        constructor
        · intro _ e' he'
          rcases List.mem_cons.1 he' with rfl | he'
          · exact hk
          · exact (ih.1 hrest) e' he'
        · intro _; trivial

theorem ccFold_last (l : List CcusagePeriod) :
    ∀ (m : EconMap) (k : String) (mm : CcusageMetrics),
      lastCc l k = some mm →
      ∃ p, lookupMap (l.foldl (stepFn (fun e => some e.key)
          (fun e p => p.set_ccusage e.metrics)) m) k = some p ∧
        p.cc_cost = some mm.total_cost ∧
        p.cc_total_tokens = some mm.total_tokens ∧
        p.cc_active_tokens = some (mm.input_tokens + mm.output_tokens) := by
  induction l with
  | nil => intro m k mm h; simp [lastCc] at h
  | cons e rest ih =>
    intro m k mm h
    rw [List.foldl_cons, @stepFn_some CcusagePeriod (fun e => some e.key)
      (fun e p => p.set_ccusage e.metrics) m e e.key rfl]
    simp only [lastCc] at h
    cases hrest : lastCc rest k with
    | some w =>
      rw [hrest] at h
      simp only [Option.some.injEq] at h
      subst h
      exact ih _ k w hrest
    | none =>
      rw [hrest] at h
      simp only [] at h
      by_cases hk : e.key = k
      · rw [if_pos hk] at h
        simp only [Option.some.injEq] at h
        subst h
        subst hk
        have huntouched : ∀ e' ∈ rest,
            (fun e : CcusagePeriod => some e.key) e' ≠ some e.key := by
          intro e' he' hc
          simp only [Option.some.injEq] at hc
          exact ((lastCc_none_iff rest e.key).1 hrest) e' he' hc
        rw [foldl_stepFn_untouched _ _ _ _ _ huntouched,
          lookupMap_mapUpdate_self]
        exact ⟨_, rfl, rfl, rfl, rfl⟩
      · rw [if_neg hk] at h
        exact absurd h (by simp)

theorem lastDay_none_iff (l : List DayStats) (k : String) :
    lastDay l k = none ↔ ∀ e ∈ l, e.date ≠ k := by
  induction l with
  | nil => simp [lastDay]
  | cons e rest ih =>
    simp only [lastDay]
    cases hrest : lastDay rest k with
    | some w =>
      simp only []
      constructor
      · intro h; exact absurd h (by simp)
      · intro h
        exact absurd (ih.2 (fun e' he' => h e' (List.mem_cons_of_mem _ he')))
          (by simp [hrest])
    | none =>
      simp only []
      by_cases hk : e.date = k
      · simp only [if_pos hk]
        constructor
        · intro h; exact absurd h (by simp)
        · intro h; exact absurd hk (h e (List.mem_cons_self _ _))
      · simp only [if_neg hk]
        constructor
        · intro _ e' he'
          rcases List.mem_cons.1 he' with rfl | he'
          · exact hk
          · exact (ih.1 hrest) e' he'
        · intro _; trivial

theorem dayFold_last (l : List DayStats) :
    ∀ (m : EconMap) (k : String) (ds : DayStats),
      lastDay l k = some ds →
      ∃ p, lookupMap (l.foldl (stepFn (fun e => some e.date)
          (fun e p => p.set_rtk_from_day e)) m) k = some p ∧
        p.rtk_commands = some ds.commands ∧
        p.rtk_saved_tokens = some ds.saved_tokens ∧
        p.rtk_savings_pct = some ds.savings_pct := by
  induction l with
  | nil => intro m k ds h; simp [lastDay] at h
  | cons e rest ih =>
    intro m k ds h
    rw [List.foldl_cons, @stepFn_some DayStats (fun e => some e.date)
      (fun e p => p.set_rtk_from_day e) m e e.date rfl]
    simp only [lastDay] at h
    cases hrest : lastDay rest k with
    | some w =>
      rw [hrest] at h
      simp only [Option.some.injEq] at h
      subst h
      exact ih _ k w hrest
    | none =>
      rw [hrest] at h
      simp only [] at h
      by_cases hk : e.date = k
      · rw [if_pos hk] at h
        simp only [Option.some.injEq] at h
        subst h
        subst hk
        have huntouched : ∀ e' ∈ rest,
            (fun e : DayStats => some e.date) e' ≠ some e.date := by
          intro e' he' hc
          simp only [Option.some.injEq] at hc
          exact ((lastDay_none_iff rest e.date).1 hrest) e' he' hc
        rw [foldl_stepFn_untouched _ _ _ _ _ huntouched,
          lookupMap_mapUpdate_self]
        exact ⟨_, rfl, rfl, rfl, rfl⟩
      · rw [if_neg hk] at h
        exact absurd h (by simp)

theorem finalize_lookup {m : EconMap} (hnd : (keysOf m).Nodup)
    (hinv : ∀ kv ∈ m, recInv kv.1 kv.2) {r : PeriodEconomics}
    (hr : r ∈ finalize m) :
    ∃ v, lookupMap m r.label = some v ∧ r = v.compute_dual_metrics := by
  obtain ⟨kv, hkv, rfl⟩ := mem_finalize.1 hr
  refine ⟨kv.2, ?_, rfl⟩
  rw [cdm_label, (hinv kv hkv).1]
  exact lookupMap_eq_some_of_mem hnd (by exact hkv)

-- ── Per-record consequences at merge output ──

theorem finalize_total_zero {m : EconMap}
    (hinv : ∀ kv ∈ m, recInv kv.1 kv.2) :
    ∀ r ∈ finalize m, r.cc_total_tokens = some 0 →
      r.blended_cpt = none ∧ r.savings_blended = none := by
  intro r hr h0
  obtain ⟨kv, hkv, rfl⟩ := mem_finalize.1 hr
  obtain ⟨-, hb, -, hsb, -⟩ := hinv kv hkv
  rw [cdm_cc_total_tokens] at h0
  rw [cdm_blended_cpt_eq _ hb, cdm_savings_blended_eq _ hsb, h0]
  rcases kv.2.cc_cost with _ | c <;> rcases kv.2.rtk_saved_tokens with _ | s <;>
    simp

theorem finalize_active_zero {m : EconMap}
    (hinv : ∀ kv ∈ m, recInv kv.1 kv.2) :
    ∀ r ∈ finalize m, r.cc_active_tokens = some 0 →
      r.active_cpt = none ∧ r.savings_active = none := by
  intro r hr h0
  obtain ⟨kv, hkv, rfl⟩ := mem_finalize.1 hr
  obtain ⟨-, -, ha, -, hsa⟩ := hinv kv hkv
  rw [cdm_cc_active_tokens] at h0
  rw [cdm_active_cpt_eq _ ha, cdm_savings_active_eq _ hsa, h0]
  rcases kv.2.cc_cost with _ | c <;> rcases kv.2.rtk_saved_tokens with _ | s <;>
    simp

theorem finalize_blended_some {m : EconMap}
    (hinv : ∀ kv ∈ m, recInv kv.1 kv.2) :
    ∀ r ∈ finalize m, ∀ q : ℚ, r.blended_cpt = some q →
      ∃ c t, r.cc_cost = some c ∧ r.cc_total_tokens = some t ∧ 0 < t ∧
        q = c / (t : ℚ) := by
  intro r hr q hq
  obtain ⟨kv, hkv, rfl⟩ := mem_finalize.1 hr
  obtain ⟨-, hb, -, -, -⟩ := hinv kv hkv
  rw [cdm_blended_cpt_eq _ hb] at hq
  rw [cdm_cc_cost, cdm_cc_total_tokens]
  revert hq
  rcases kv.2.cc_cost with _ | c <;> rcases kv.2.rtk_saved_tokens with _ | s <;>
    rcases kv.2.cc_total_tokens with _ | t <;> intro hq <;>
      (try simp at hq)
  exact ⟨c, t, rfl, rfl, hq.1, hq.2.symm⟩

theorem finalize_active_some {m : EconMap}
    (hinv : ∀ kv ∈ m, recInv kv.1 kv.2) :
    ∀ r ∈ finalize m, ∀ q : ℚ, r.active_cpt = some q →
      ∃ c t, r.cc_cost = some c ∧ r.cc_active_tokens = some t ∧ 0 < t ∧
        q = c / (t : ℚ) := by
  intro r hr q hq
  obtain ⟨kv, hkv, rfl⟩ := mem_finalize.1 hr
  obtain ⟨-, -, ha, -, -⟩ := hinv kv hkv
  rw [cdm_active_cpt_eq _ ha] at hq
  rw [cdm_cc_cost, cdm_cc_active_tokens]
  revert hq
  rcases kv.2.cc_cost with _ | c <;> rcases kv.2.rtk_saved_tokens with _ | s <;>
    rcases kv.2.cc_active_tokens with _ | t <;> intro hq <;>
      (try simp at hq)
  exact ⟨c, t, rfl, rfl, hq.1, hq.2.symm⟩

theorem finalize_presence {m : EconMap}
    (hinv : ∀ kv ∈ m, recInv kv.1 kv.2) :
    ∀ r ∈ finalize m,
      (r.blended_cpt.isSome = true ↔ r.cc_cost.isSome = true ∧
        r.rtk_saved_tokens.isSome = true ∧
        ∃ t, r.cc_total_tokens = some t ∧ 0 < t) ∧
      (r.savings_blended.isSome = true ↔ r.cc_cost.isSome = true ∧
        r.rtk_saved_tokens.isSome = true ∧
        ∃ t, r.cc_total_tokens = some t ∧ 0 < t) ∧
      (r.active_cpt.isSome = true ↔ r.cc_cost.isSome = true ∧
        r.rtk_saved_tokens.isSome = true ∧
        ∃ t, r.cc_active_tokens = some t ∧ 0 < t) ∧
      (r.savings_active.isSome = true ↔ r.cc_cost.isSome = true ∧
        r.rtk_saved_tokens.isSome = true ∧
        ∃ t, r.cc_active_tokens = some t ∧ 0 < t) := by
  intro r hr
  obtain ⟨kv, hkv, rfl⟩ := mem_finalize.1 hr
  obtain ⟨-, hb, ha, hsb, hsa⟩ := hinv kv hkv
  rw [cdm_cc_cost, cdm_cc_total_tokens, cdm_cc_active_tokens,
    cdm_rtk_saved_tokens, cdm_blended_cpt_eq _ hb, cdm_savings_blended_eq _ hsb,
    cdm_active_cpt_eq _ ha, cdm_savings_active_eq _ hsa]
  rcases kv.2.cc_cost with _ | c <;> rcases kv.2.rtk_saved_tokens with _ | s <;>
    rcases kv.2.cc_total_tokens with _ | t <;>
      rcases kv.2.cc_active_tokens with _ | a <;>
        refine ⟨?_, ?_, ?_, ?_⟩ <;> simp

-- ── Claim theorems ──

/-- C7: for every input string that parses as a `YYYY-MM-DD` date the
Saturday-to-Monday normalizer returns the date exactly 2 days later formatted
as `YYYY-MM-DD`, and `none` for every input that does not parse; in
particular `"2026-01-18"` maps to `some "2026-01-20"` and `"invalid"` to
`none`. -/
theorem C7_saturday_to_monday :
    (∀ (s : String) (d : Date), parseDate s = some d →
      convert_saturday_to_monday s = some (formatDate (addDays d 2))) ∧
    (∀ s : String, parseDate s = none →
      convert_saturday_to_monday s = none) ∧
    convert_saturday_to_monday "2026-01-18" = some "2026-01-20" ∧
    convert_saturday_to_monday "invalid" = none := by
  refine ⟨?_, ?_, by decide, by decide⟩
  · intro s d h
    simp [convert_saturday_to_monday, h]
  · intro s h
    simp [convert_saturday_to_monday, h]

/-- Witness for C7 at the concrete Saturday `2026-01-18`. -/
theorem C7_saturday_to_monday_witness :
    convert_saturday_to_monday "2026-01-18" =
      some (formatDate (addDays ⟨2026, 1, 18⟩ 2)) :=
  C7_saturday_to_monday.1 "2026-01-18" ⟨2026, 1, 18⟩ (by decide)

/-- C5: a weekly merge is unchanged when the savings entries whose week-start
key does not parse are removed first: unparseable entries are dropped whole,
contribute to no record, create no default key, and all other entries of both
sources merge normally; the merge itself never fails. -/
theorem C5_unparseable_week_dropped :
    ∀ (cc : Option (List CcusagePeriod)) (rtk : List WeekStats),
      merge_weekly cc rtk =
        merge_weekly cc (rtk.filter
          (fun e => (convert_saturday_to_monday e.week_start).isSome)) := by
  intro cc rtk
  rw [merge_weekly_eq, merge_weekly_eq]
  unfold finalize
  rw [weeklyMap_eq, weeklyMap_eq]
  congr 2
  generalize ccMap cc = m
  induction rtk generalizing m with
  | nil => rfl
  | cons e rest ih =>
    rw [List.foldl_cons, List.filter_cons]
    cases h : convert_saturday_to_monday e.week_start with
    | none =>
      rw [@stepFn_none WeekStats
        (fun e => convert_saturday_to_monday e.week_start)
        (fun e p => p.set_rtk_from_week e) m e h]
      simp only [h, Option.isSome_none, Bool.false_eq_true, if_neg,
        Bool.not_eq_true]
      exact ih m
    | some k =>
      rw [@stepFn_some WeekStats
        (fun e => convert_saturday_to_monday e.week_start)
        (fun e p => p.set_rtk_from_week e) m e k h]
      simp only [h, Option.isSome_some, if_pos]
      rw [List.foldl_cons]
      rw [@stepFn_some WeekStats
        (fun e => convert_saturday_to_monday e.week_start)
        (fun e p => p.set_rtk_from_week e) m e k h]
      exact ih _

theorem finalize_label_exists_iff {m : EconMap}
    (hinv : ∀ kv ∈ m, recInv kv.1 kv.2) (k : String) :
    (∃ r ∈ finalize m, r.label = k) ↔ k ∈ keysOf m := by
  constructor
  · rintro ⟨r, hr, rfl⟩
    obtain ⟨kv, hkv, rfl⟩ := mem_finalize.1 hr
    rw [cdm_label, (hinv kv hkv).1]
    exact List.mem_map.2 ⟨kv, hkv, rfl⟩
  · intro hk
    obtain ⟨v, hv⟩ :=
      Option.isSome_iff_exists.1 (lookupMap_isSome_iff_mem_keys.2 hk)
    have hmem := mem_of_lookupMap_eq_some hv
    refine ⟨v.compute_dual_metrics, mem_finalize.2 ⟨(k, v), hmem, rfl⟩, ?_⟩
    rw [cdm_label]
    exact (hinv (k, v) hmem).1

/-- C6: every merge (daily, weekly, monthly) emits exactly one record per
distinct canonical key of either source: the output labels are exactly the
canonical keys, pairwise distinct, and the list is sorted in strictly
ascending lexicographic label order. -/
theorem C6_unique_sorted_complete :
    ∀ cc : Option (List CcusagePeriod),
      (∀ rtk : List DayStats,
        ((merge_daily cc rtk).map (fun r => r.label)).Nodup ∧
        (merge_daily cc rtk).Pairwise
          (fun a b => labelLe a b ∧ a.label ≠ b.label) ∧
        ∀ k : String,
          (∃ r ∈ merge_daily cc rtk, r.label = k) ↔ k ∈ dailyKeys cc rtk) ∧
      (∀ rtk : List WeekStats,
        ((merge_weekly cc rtk).map (fun r => r.label)).Nodup ∧
        (merge_weekly cc rtk).Pairwise
          (fun a b => labelLe a b ∧ a.label ≠ b.label) ∧
        ∀ k : String,
          (∃ r ∈ merge_weekly cc rtk, r.label = k) ↔ k ∈ weeklyKeys cc rtk) ∧
      (∀ rtk : List MonthStats,
        ((merge_monthly cc rtk).map (fun r => r.label)).Nodup ∧
        (merge_monthly cc rtk).Pairwise
          (fun a b => labelLe a b ∧ a.label ≠ b.label) ∧
        ∀ k : String,
          (∃ r ∈ merge_monthly cc rtk, r.label = k) ↔
            k ∈ monthlyKeys cc rtk) := by
  intro cc
  refine ⟨fun rtk => ?_, fun rtk => ?_, fun rtk => ?_⟩
  · rw [merge_daily_eq]
    have hnd := finalize_labels_nodup (dailyMap_inv cc rtk)
      (dailyMap_nodup cc rtk)
    refine ⟨hnd, pairwise_strict_of_sorted_nodup (finalize_sorted _) hnd, ?_⟩
    intro k
    rw [finalize_label_exists_iff (dailyMap_inv cc rtk) k,
      mem_keys_dailyMap]
  · rw [merge_weekly_eq]
    have hnd := finalize_labels_nodup (weeklyMap_inv cc rtk)
      (weeklyMap_nodup cc rtk)
    refine ⟨hnd, pairwise_strict_of_sorted_nodup (finalize_sorted _) hnd, ?_⟩
    intro k
    rw [finalize_label_exists_iff (weeklyMap_inv cc rtk) k,
      mem_keys_weeklyMap]
  · rw [merge_monthly_eq]
    have hnd := finalize_labels_nodup (monthlyMap_inv cc rtk)
      (monthlyMap_nodup cc rtk)
    refine ⟨hnd, pairwise_strict_of_sorted_nodup (finalize_sorted _) hnd, ?_⟩
    intro k
    rw [finalize_label_exists_iff (monthlyMap_inv cc rtk) k,
      mem_keys_monthlyMap]

/-- Witness for C6: at a concrete two-source monthly merge the key-coverage
direction produces a record labelled by the savings month. -/
theorem C6_unique_sorted_complete_witness :
    ∃ r ∈ merge_monthly (some [exSpendEntry]) [exMonthEntry],
      r.label = "2026-01" :=
  (((C6_unique_sorted_complete (some [exSpendEntry])).2.2
    [exMonthEntry]).2.2 "2026-01").2 (by decide)

theorem sortOutputs_unique {m : EconMap}
    (hinv : ∀ kv ∈ m, recInv kv.1 kv.2) (hnd : (keysOf m).Nodup)
    {out : List PeriodEconomics}
    (h : ∃ vs : List PeriodEconomics, vs.Perm (valuesOf m) ∧
      out = sortPeriods (vs.map PeriodEconomics.compute_dual_metrics)) :
    out = finalize m := by
  obtain ⟨vs, hperm, rfl⟩ := h
  have hp : (sortPeriods (vs.map PeriodEconomics.compute_dual_metrics)).Perm
      (finalize m) := by
    unfold finalize
    exact (sortPeriods_perm _).trans
      ((hperm.map _).trans (sortPeriods_perm _).symm)
  refine eq_of_perm_sorted hp (sortPeriods_sorted _) (finalize_sorted m) ?_
  exact ((hp.map (fun r => r.label)).nodup_iff).2
    (finalize_labels_nodup hinv hnd)

/-- C8: each merge is deterministic: whatever value-iteration order the
intermediate `HashMap` yields, the output equals the canonical merge result,
so two runs on equal inputs return equal lists. -/
theorem C8_deterministic :
    (∀ (cc : Option (List CcusagePeriod)) (rtk : List DayStats)
      (out1 out2 : List PeriodEconomics), mergeDailyOutputs cc rtk out1 →
        mergeDailyOutputs cc rtk out2 → out1 = out2) ∧
    (∀ (cc : Option (List CcusagePeriod)) (rtk : List WeekStats)
      (out1 out2 : List PeriodEconomics), mergeWeeklyOutputs cc rtk out1 →
        mergeWeeklyOutputs cc rtk out2 → out1 = out2) ∧
    (∀ (cc : Option (List CcusagePeriod)) (rtk : List MonthStats)
      (out1 out2 : List PeriodEconomics), mergeMonthlyOutputs cc rtk out1 →
        mergeMonthlyOutputs cc rtk out2 → out1 = out2) := by
  refine ⟨fun cc rtk out1 out2 h1 h2 => ?_, fun cc rtk out1 out2 h1 h2 => ?_,
    fun cc rtk out1 out2 h1 h2 => ?_⟩
  · rw [sortOutputs_unique (dailyMap_inv cc rtk) (dailyMap_nodup cc rtk) h1,
      sortOutputs_unique (dailyMap_inv cc rtk) (dailyMap_nodup cc rtk) h2]
  · rw [sortOutputs_unique (weeklyMap_inv cc rtk) (weeklyMap_nodup cc rtk) h1,
      sortOutputs_unique (weeklyMap_inv cc rtk) (weeklyMap_nodup cc rtk) h2]
  · rw [sortOutputs_unique (monthlyMap_inv cc rtk) (monthlyMap_nodup cc rtk)
      h1,
      sortOutputs_unique (monthlyMap_inv cc rtk) (monthlyMap_nodup cc rtk) h2]

/-- Witness for C8: two iteration orders of the one-entry daily merge map
yield the same output. -/
theorem C8_deterministic_witness :
    merge_daily (some [exSpendEntry]) [] = merge_daily (some [exSpendEntry]) []
    :=
  C8_deterministic.1 (some [exSpendEntry]) [] _ _
    ⟨valuesOf (dailyMap (some [exSpendEntry]) []), List.Perm.refl _, rfl⟩
    ⟨valuesOf (dailyMap (some [exSpendEntry]) []), List.Perm.refl _, rfl⟩

/-- C2: in every merged record a present-but-zero token count yields absent
dual metrics (`none`, never a sentinel number), and any computed
cost-per-token value arose from a present cost divided by a present,
strictly positive token count — no zero denominator is ever used. -/
theorem C2_zero_tokens_absent :
    (∀ (cc : Option (List CcusagePeriod)) (rtk : List DayStats),
      ∀ r ∈ merge_daily cc rtk,
        (r.cc_total_tokens = some 0 →
          r.blended_cpt = none ∧ r.savings_blended = none) ∧
        (r.cc_active_tokens = some 0 →
          r.active_cpt = none ∧ r.savings_active = none) ∧
        (∀ q : ℚ, r.blended_cpt = some q → ∃ c t, r.cc_cost = some c ∧
          r.cc_total_tokens = some t ∧ 0 < t ∧ q = c / (t : ℚ)) ∧
        (∀ q : ℚ, r.active_cpt = some q → ∃ c t, r.cc_cost = some c ∧
          r.cc_active_tokens = some t ∧ 0 < t ∧ q = c / (t : ℚ))) ∧
    (∀ (cc : Option (List CcusagePeriod)) (rtk : List WeekStats),
      ∀ r ∈ merge_weekly cc rtk,
        (r.cc_total_tokens = some 0 →
          r.blended_cpt = none ∧ r.savings_blended = none) ∧
        (r.cc_active_tokens = some 0 →
          r.active_cpt = none ∧ r.savings_active = none) ∧
        (∀ q : ℚ, r.blended_cpt = some q → ∃ c t, r.cc_cost = some c ∧
          r.cc_total_tokens = some t ∧ 0 < t ∧ q = c / (t : ℚ)) ∧
        (∀ q : ℚ, r.active_cpt = some q → ∃ c t, r.cc_cost = some c ∧
          r.cc_active_tokens = some t ∧ 0 < t ∧ q = c / (t : ℚ))) ∧
    (∀ (cc : Option (List CcusagePeriod)) (rtk : List MonthStats),
      ∀ r ∈ merge_monthly cc rtk,
        (r.cc_total_tokens = some 0 →
          r.blended_cpt = none ∧ r.savings_blended = none) ∧
        (r.cc_active_tokens = some 0 →
          r.active_cpt = none ∧ r.savings_active = none) ∧
        (∀ q : ℚ, r.blended_cpt = some q → ∃ c t, r.cc_cost = some c ∧
          r.cc_total_tokens = some t ∧ 0 < t ∧ q = c / (t : ℚ)) ∧
        (∀ q : ℚ, r.active_cpt = some q → ∃ c t, r.cc_cost = some c ∧
          r.cc_active_tokens = some t ∧ 0 < t ∧ q = c / (t : ℚ))) := by
  refine ⟨fun cc rtk r hr => ?_, fun cc rtk r hr => ?_, fun cc rtk r hr => ?_⟩
  · rw [merge_daily_eq] at hr
    exact ⟨finalize_total_zero (dailyMap_inv cc rtk) r hr,
      finalize_active_zero (dailyMap_inv cc rtk) r hr,
      finalize_blended_some (dailyMap_inv cc rtk) r hr,
      finalize_active_some (dailyMap_inv cc rtk) r hr⟩
  · rw [merge_weekly_eq] at hr
    exact ⟨finalize_total_zero (weeklyMap_inv cc rtk) r hr,
      finalize_active_zero (weeklyMap_inv cc rtk) r hr,
      finalize_blended_some (weeklyMap_inv cc rtk) r hr,
      finalize_active_some (weeklyMap_inv cc rtk) r hr⟩
  · rw [merge_monthly_eq] at hr
    exact ⟨finalize_total_zero (monthlyMap_inv cc rtk) r hr,
      finalize_active_zero (monthlyMap_inv cc rtk) r hr,
      finalize_blended_some (monthlyMap_inv cc rtk) r hr,
      finalize_active_some (monthlyMap_inv cc rtk) r hr⟩

/-- Witness for C2 at a spend entry with cost 5 and zero token counts. -/
theorem C2_zero_tokens_absent_witness :
    exZeroRecord.blended_cpt = none ∧ exZeroRecord.savings_blended = none ∧
    exZeroRecord.active_cpt = none ∧ exZeroRecord.savings_active = none := by
  have hmem : exZeroRecord ∈ merge_daily (some [exZeroSpend]) [] := by
    rw [show merge_daily (some [exZeroSpend]) [] = [exZeroRecord] from rfl]
    exact List.mem_singleton.mpr rfl
  have h := C2_zero_tokens_absent.1 (some [exZeroSpend]) [] exZeroRecord hmem
  exact ⟨(h.1 rfl).1, (h.1 rfl).2, (h.2.1 rfl).1, (h.2.1 rfl).2⟩

/-- C1 as frozen is false on the code: `compute_dual_metrics` computes no
field at all — including the cost-per-token fields — unless
`rtk_saved_tokens` is present.  Here a record with cost and positive total
tokens but absent savings tokens gets `blended_cpt = none`, contradicting
the claim that cost-per-token presence needs only cost and token data. -/
theorem C1_counterexample_saved_absent :
    ∃ r, merge_monthly (some [exSpendEntry]) [] = [r] ∧
      r.cc_cost.isSome = true ∧ r.cc_total_tokens = some 1800 ∧
      r.rtk_saved_tokens = none ∧ r.blended_cpt = none ∧
      r.savings_blended = none ∧ r.active_cpt = none ∧
      r.savings_active = none :=
  ⟨_, rfl, rfl, rfl, rfl, rfl, rfl, rfl, rfl⟩

/-- C1 amended: in every merged record each derived field — the two
cost-per-token fields included — is present exactly when `spend_cost`,
`savings_tokens` and the respective token count are all present with the
token count positive. -/
theorem C1_presence_amended :
    (∀ (cc : Option (List CcusagePeriod)) (rtk : List DayStats),
      ∀ r ∈ merge_daily cc rtk,
        (r.blended_cpt.isSome = true ↔ r.cc_cost.isSome = true ∧
          r.rtk_saved_tokens.isSome = true ∧
          ∃ t, r.cc_total_tokens = some t ∧ 0 < t) ∧
        (r.savings_blended.isSome = true ↔ r.cc_cost.isSome = true ∧
          r.rtk_saved_tokens.isSome = true ∧
          ∃ t, r.cc_total_tokens = some t ∧ 0 < t) ∧
        (r.active_cpt.isSome = true ↔ r.cc_cost.isSome = true ∧
          r.rtk_saved_tokens.isSome = true ∧
          ∃ t, r.cc_active_tokens = some t ∧ 0 < t) ∧
        (r.savings_active.isSome = true ↔ r.cc_cost.isSome = true ∧
          r.rtk_saved_tokens.isSome = true ∧
          ∃ t, r.cc_active_tokens = some t ∧ 0 < t)) ∧
    (∀ (cc : Option (List CcusagePeriod)) (rtk : List WeekStats),
      ∀ r ∈ merge_weekly cc rtk,
        (r.blended_cpt.isSome = true ↔ r.cc_cost.isSome = true ∧
          r.rtk_saved_tokens.isSome = true ∧
          ∃ t, r.cc_total_tokens = some t ∧ 0 < t) ∧
        (r.savings_blended.isSome = true ↔ r.cc_cost.isSome = true ∧
          r.rtk_saved_tokens.isSome = true ∧
          ∃ t, r.cc_total_tokens = some t ∧ 0 < t) ∧
        (r.active_cpt.isSome = true ↔ r.cc_cost.isSome = true ∧
          r.rtk_saved_tokens.isSome = true ∧
          ∃ t, r.cc_active_tokens = some t ∧ 0 < t) ∧
        (r.savings_active.isSome = true ↔ r.cc_cost.isSome = true ∧
          r.rtk_saved_tokens.isSome = true ∧
          ∃ t, r.cc_active_tokens = some t ∧ 0 < t)) ∧
    (∀ (cc : Option (List CcusagePeriod)) (rtk : List MonthStats),
      ∀ r ∈ merge_monthly cc rtk,
        (r.blended_cpt.isSome = true ↔ r.cc_cost.isSome = true ∧
          r.rtk_saved_tokens.isSome = true ∧
          ∃ t, r.cc_total_tokens = some t ∧ 0 < t) ∧
        (r.savings_blended.isSome = true ↔ r.cc_cost.isSome = true ∧
          r.rtk_saved_tokens.isSome = true ∧
          ∃ t, r.cc_total_tokens = some t ∧ 0 < t) ∧
        (r.active_cpt.isSome = true ↔ r.cc_cost.isSome = true ∧
          r.rtk_saved_tokens.isSome = true ∧
          ∃ t, r.cc_active_tokens = some t ∧ 0 < t) ∧
        (r.savings_active.isSome = true ↔ r.cc_cost.isSome = true ∧
          r.rtk_saved_tokens.isSome = true ∧
          ∃ t, r.cc_active_tokens = some t ∧ 0 < t)) := by
  refine ⟨fun cc rtk r hr => ?_, fun cc rtk r hr => ?_, fun cc rtk r hr => ?_⟩
  · rw [merge_daily_eq] at hr
    exact finalize_presence (dailyMap_inv cc rtk) r hr
  · rw [merge_weekly_eq] at hr
    exact finalize_presence (weeklyMap_inv cc rtk) r hr
  · rw [merge_monthly_eq] at hr
    exact finalize_presence (monthlyMap_inv cc rtk) r hr

/-- Witness for the amended C1 at the spec §8 end-to-end merge, where cost,
savings tokens and positive token counts are all present. -/
theorem C1_presence_amended_witness :
    exMergedBoth.blended_cpt.isSome = true ∧
    exMergedBoth.savings_active.isSome = true := by
  have hmem : exMergedBoth ∈
      merge_monthly (some [exSpendEntry]) [exMonthEntry] := by
    rw [show merge_monthly (some [exSpendEntry]) [exMonthEntry] =
      [exMergedBoth] from rfl]
    exact List.mem_singleton.mpr rfl
  have h := C1_presence_amended.2.2 (some [exSpendEntry]) [exMonthEntry]
    exMergedBoth hmem
  exact ⟨h.1.2 ⟨rfl, rfl, 1800, rfl, by decide⟩,
    h.2.2.2.2 ⟨rfl, rfl, 1500, rfl, by decide⟩⟩

/-- C4 as frozen is false on the code: the zero fallback of the month-level
percentage is keyed on `input_tokens + output_tokens = 0`, not on the full
denominator `saved_tokens + input_tokens + output_tokens = 0`.  With
`saved_tokens = 5` and `input_tokens + output_tokens = 0` the merged record
carries `savings_pct = 0` although the claim's formula gives `100` and its
denominator `5` is nonzero. -/
theorem C4_counterexample_saved_only :
    (∃ r, merge_monthly none [exMonthSavedOnly] = [r] ∧
      r.rtk_savings_pct = some 0) ∧
    exMonthSavedOnly.saved_tokens + exMonthSavedOnly.input_tokens +
      exMonthSavedOnly.output_tokens ≠ 0 ∧
    (exMonthSavedOnly.saved_tokens : ℚ) /
      ((exMonthSavedOnly.saved_tokens + exMonthSavedOnly.input_tokens +
        exMonthSavedOnly.output_tokens : ℕ) : ℚ) * 100 = 100 := by
  refine ⟨⟨_, rfl, rfl⟩, by decide, ?_⟩
  show (5 : ℚ) / ((5 : ℕ) : ℚ) * 100 = 100
  norm_num

/-- C4 amended: the month-level percentage equals the formula
`saved / (saved + input + output) * 100` whenever `input + output > 0`, and
falls back to `0` exactly when `input + output = 0` — so it is `0` iff
`saved_tokens = 0` or `input_tokens + output_tokens = 0`, not iff the full
denominator is zero. -/
theorem C4_month_pct_amended :
    ∀ (p : PeriodEconomics) (s : MonthStats),
      (0 < s.input_tokens + s.output_tokens →
        (p.set_rtk_from_month s).rtk_savings_pct =
          some ((s.saved_tokens : ℚ) /
            ((s.saved_tokens + s.input_tokens + s.output_tokens : ℕ) : ℚ)
            * 100)) ∧
      (s.input_tokens + s.output_tokens = 0 →
        (p.set_rtk_from_month s).rtk_savings_pct = some 0) ∧
      ((p.set_rtk_from_month s).rtk_savings_pct = some 0 ↔
        s.saved_tokens = 0 ∨ s.input_tokens + s.output_tokens = 0) := by
  intro p s
  have hbase : (p.set_rtk_from_month s).rtk_savings_pct =
      some (if 0 < s.input_tokens + s.output_tokens then
        (s.saved_tokens : ℚ) /
          ((s.saved_tokens + s.input_tokens + s.output_tokens : ℕ) : ℚ) * 100
      else 0) := rfl
  refine ⟨?_, ?_, ?_⟩
  · intro h
    rw [hbase, if_pos h]
  · intro h
    rw [hbase, if_neg (by omega)]
  · rw [hbase]
    simp only [Option.some.injEq]
    by_cases h : 0 < s.input_tokens + s.output_tokens
    · rw [if_pos h]
      constructor
      · intro heq
        left
        have hden : ((s.saved_tokens + s.input_tokens + s.output_tokens : ℕ)
            : ℚ) ≠ 0 := by
          rw [Ne, Nat.cast_eq_zero]
          omega
        have hnum : (s.saved_tokens : ℚ) = 0 := by
          have h100 : (100 : ℚ) ≠ 0 := by norm_num
          have hdiv : (s.saved_tokens : ℚ) /
              ((s.saved_tokens + s.input_tokens + s.output_tokens : ℕ) : ℚ)
              = 0 := by
            rcases mul_eq_zero.1 heq with hx | hx
            · exact hx
            · exact absurd hx h100
          exact (div_eq_zero_iff.1 hdiv).resolve_right hden
        exact_mod_cast hnum
      · rintro (h0 | h0)
        · rw [h0]
          simp
        · omega
    · rw [if_neg h]
      constructor
      · intro _
        right
        omega
      · intro _
        rfl

/-- Witness for the amended C4 at the spec §8 month entry, whose
`input + output` is positive. -/
theorem C4_month_pct_amended_witness :
    (((PeriodEconomics.new "2026-01").set_rtk_from_month
        exMonthEntry).rtk_savings_pct =
      some ((exMonthEntry.saved_tokens : ℚ) /
        ((exMonthEntry.saved_tokens + exMonthEntry.input_tokens +
          exMonthEntry.output_tokens : ℕ) : ℚ) * 100)) :=
  (C4_month_pct_amended (PeriodEconomics.new "2026-01") exMonthEntry).1
    (by decide)

theorem exPeriodsAsym_eq :
    exPeriodsAsym = [exPeriodAsym1, exPeriodAsym2] := rfl

/-- C3: the Totals dual metrics are recomputed from the summed totals —
`sum(cost)/sum(tokens)` scaled by `sum(saved)` — and on a concrete
asymmetric-volume merge the result differs from the arithmetic mean of the
per-period dual metrics, so the summed-totals policy is the one produced. -/
theorem C3_totals_from_sums :
    (∀ ps : List PeriodEconomics,
      (0 < sumTotalTokens ps →
        (compute_totals ps).blended_cpt =
          some (sumCost ps / (sumTotalTokens ps : ℚ)) ∧
        (compute_totals ps).savings_blended =
          some ((sumSaved ps : ℚ) *
            (sumCost ps / (sumTotalTokens ps : ℚ)))) ∧
      (0 < sumActiveTokens ps →
        (compute_totals ps).active_cpt =
          some (sumCost ps / (sumActiveTokens ps : ℚ)) ∧
        (compute_totals ps).savings_active =
          some ((sumSaved ps : ℚ) *
            (sumCost ps / (sumActiveTokens ps : ℚ))))) ∧
    (compute_totals exPeriodsAsym).blended_cpt ≠
      meanBlendedOfPeriods exPeriodsAsym := by
  constructor
  · intro ps
    obtain ⟨-, -, -, -, -, -, h7, h8, h9, h10⟩ := compute_totals_spec ps
    exact ⟨fun ht => ⟨by rw [h7, if_pos ht], by rw [h8, if_pos ht]⟩,
      fun ha => ⟨by rw [h9, if_pos ha], by rw [h10, if_pos ha]⟩⟩
  · obtain ⟨-, -, -, -, -, -, h7, -, -, -⟩ :=
      compute_totals_spec exPeriodsAsym
    have hT : sumTotalTokens exPeriodsAsym = 1000100 := by decide
    have hC : sumCost exPeriodsAsym = 300 := by
      rw [exPeriodsAsym_eq]
      simp [sumCost, exPeriodAsym1, exPeriodAsym2]
      norm_num
    have hM : meanBlendedOfPeriods exPeriodsAsym =
        some ((100 / 1000000 + 200 / 100 : ℚ) / 2) := by
      rw [exPeriodsAsym_eq]
      simp [meanBlendedOfPeriods, exPeriodAsym1, exPeriodAsym2]
    rw [h7, hT, if_pos (by norm_num), hC, hM]
    simp only [Ne, Option.some.injEq]
    norm_num

/-- Witness for C3: on the asymmetric example the summed-totals hypotheses
hold and the theorem yields the summed-totals dual metrics. -/
theorem C3_totals_from_sums_witness :
    (compute_totals exPeriodsAsym).blended_cpt =
      some (sumCost exPeriodsAsym / (sumTotalTokens exPeriodsAsym : ℚ)) ∧
    (compute_totals exPeriodsAsym).savings_blended =
      some ((sumSaved exPeriodsAsym : ℚ) *
        (sumCost exPeriodsAsym / (sumTotalTokens exPeriodsAsym : ℚ))) :=
  (C3_totals_from_sums.1 exPeriodsAsym).1 (by decide)

/-- C9: when one source collection carries several entries for the same
canonical key, the merged record for that key holds the fields of the last
such entry in input order — later entries overwrite, nothing accumulates
(shown for the daily merge on both the spend and the savings side). -/
theorem C9_last_entry_overwrites :
    ∀ (ccl : List CcusagePeriod) (rtk : List DayStats) (k : String)
      (r : PeriodEconomics), r ∈ merge_daily (some ccl) rtk → r.label = k →
      (∀ mm : CcusageMetrics, lastCc ccl k = some mm →
        r.cc_cost = some mm.total_cost ∧
        r.cc_total_tokens = some mm.total_tokens ∧
        r.cc_active_tokens = some (mm.input_tokens + mm.output_tokens)) ∧
      (∀ ds : DayStats, lastDay rtk k = some ds →
        r.rtk_commands = some ds.commands ∧
        r.rtk_saved_tokens = some ds.saved_tokens ∧
        r.rtk_savings_pct = some ds.savings_pct) := by
  intro ccl rtk k r hr hlabel
  rw [merge_daily_eq] at hr
  obtain ⟨v, hv, rfl⟩ := finalize_lookup (dailyMap_nodup (some ccl) rtk)
    (dailyMap_inv (some ccl) rtk) hr
  rw [hlabel] at hv
  constructor
  · intro mm hmm
    obtain ⟨p0, hp0, hf1, hf2, hf3⟩ := ccFold_last ccl [] k mm hmm
    rw [← ccMap_some_eq] at hp0
    obtain ⟨q, hq, hview⟩ := foldl_stepFn_view_preserved
      (fun e => some e.date) (fun e p => p.set_rtk_from_day e)
      (fun p => (p.cc_cost, p.cc_total_tokens, p.cc_active_tokens))
      (fun e p => rfl) rtk (ccMap (some ccl)) k p0 hp0
    rw [← dailyMap_eq] at hq
    have hqv : q = v := Option.some.inj (hq.symm.trans hv)
    subst hqv
    simp only [Prod.mk.injEq] at hview
    obtain ⟨e1, e2, e3⟩ := hview
    rw [cdm_cc_cost, cdm_cc_total_tokens, cdm_cc_active_tokens]
    exact ⟨e1.trans hf1, e2.trans hf2, e3.trans hf3⟩
  · intro ds hds
    obtain ⟨p0, hp0, h1, h2, h3⟩ := dayFold_last rtk (ccMap (some ccl)) k ds
      hds
    rw [← dailyMap_eq] at hp0
    have hpv : p0 = v := Option.some.inj (hp0.symm.trans hv)
    subst hpv
    rw [cdm_rtk_commands, cdm_rtk_saved_tokens, cdm_rtk_savings_pct]
    exact ⟨h1, h2, h3⟩

/-- Witness for C9 at a merge where both sources repeat the key
`2026-01-01`: the record carries the second spend entry's cost/token values
and the second savings entry's fields. -/
theorem C9_last_entry_overwrites_witness :
    exDupRecord.cc_cost = some 9 ∧ exDupRecord.cc_total_tokens = some 10 ∧
    exDupRecord.rtk_commands = some 6 ∧
    exDupRecord.rtk_saved_tokens = some 900 := by
  have hmem : exDupRecord ∈ merge_daily (some exDupSpend) exDupDays := by
    rw [show merge_daily (some exDupSpend) exDupDays = [exDupRecord] from rfl]
    exact List.mem_singleton.mpr rfl
  have h := C9_last_entry_overwrites exDupSpend exDupDays "2026-01-01"
    exDupRecord hmem rfl
  have hcc := h.1 ⟨3, 4, 0, 0, 10, 9⟩ rfl
  have hday := h.2 ⟨"2026-01-01", 6, 900, 75⟩ rfl
  exact ⟨hcc.1, hcc.2.1, hday.1, hday.2.1⟩

theorem sum_foldl_zero {M α : Type} [AddCommMonoid M] (f : α → M)
    (l : List α) (h : ∀ x ∈ l, f x = 0) :
    l.foldl (fun a x => a + f x) 0 = 0 := by
  induction l with
  | nil => rfl
  | cons e rest ih =>
    rw [List.foldl_cons, foldl_add_shift, h e (List.mem_cons_self _ _),
      ih (fun x hx => h x (List.mem_cons_of_mem _ hx))]
    simp

/-- C10: in the Totals record the summed fields are plain numbers defaulting
to `0` when no period contributed, and the savings-value fields are present
exactly when the corresponding summed token count is positive — even when
every period's `savings_tokens` was absent, in which case they equal `0`
rather than being absent. -/
theorem C10_totals_zero_defaults :
    ∀ ps : List PeriodEconomics,
      ((∀ p ∈ ps, p.cc_cost = none) → (compute_totals ps).cc_cost = 0) ∧
      ((∀ p ∈ ps, p.cc_total_tokens = none) →
        (compute_totals ps).cc_total_tokens = 0) ∧
      ((∀ p ∈ ps, p.cc_active_tokens = none) →
        (compute_totals ps).cc_active_tokens = 0) ∧
      ((∀ p ∈ ps, p.rtk_commands = none) →
        (compute_totals ps).rtk_commands = 0) ∧
      ((∀ p ∈ ps, p.rtk_saved_tokens = none) →
        (compute_totals ps).rtk_saved_tokens = 0) ∧
      ((compute_totals ps).savings_blended.isSome = true ↔
        0 < sumTotalTokens ps) ∧
      ((compute_totals ps).savings_active.isSome = true ↔
        0 < sumActiveTokens ps) ∧
      ((∀ p ∈ ps, p.rtk_saved_tokens = none) → 0 < sumTotalTokens ps →
        (compute_totals ps).savings_blended = some 0) ∧
      ((∀ p ∈ ps, p.rtk_saved_tokens = none) → 0 < sumActiveTokens ps →
        (compute_totals ps).savings_active = some 0) := by
  intro ps
  obtain ⟨h1, h2, h3, h4, h5, -, -, h8, -, h10⟩ := compute_totals_spec ps
  have hsaved : (∀ p ∈ ps, p.rtk_saved_tokens = none) → sumSaved ps = 0 :=
    fun h => sum_foldl_zero _ ps (fun p hp => by rw [h p hp]; rfl)
  refine ⟨?_, ?_, ?_, ?_, ?_, ?_, ?_, ?_, ?_⟩
  · intro h
    rw [h1]
    exact sum_foldl_zero _ ps (fun p hp => by rw [h p hp]; rfl)
  · intro h
    rw [h2]
    exact sum_foldl_zero _ ps (fun p hp => by rw [h p hp]; rfl)
  · intro h
    rw [h3]
    exact sum_foldl_zero _ ps (fun p hp => by rw [h p hp]; rfl)
  · intro h
    rw [h4]
    exact sum_foldl_zero _ ps (fun p hp => by rw [h p hp]; rfl)
  · intro h
    rw [h5]
    exact sum_foldl_zero _ ps (fun p hp => by rw [h p hp]; rfl)
  · rw [h8]
    by_cases ht : 0 < sumTotalTokens ps <;> simp [ht]
  · rw [h10]
    by_cases ht : 0 < sumActiveTokens ps <;> simp [ht]
  · intro h ht
    rw [h8, if_pos ht, hsaved h]
    simp
  · intro h ht
    rw [h10, if_pos ht, hsaved h]
    simp

/-- Witness for C10 at a list whose only record has spend data and no
savings fields. -/
theorem C10_totals_zero_defaults_witness :
    (compute_totals exNoSavedPeriods).savings_blended = some 0 ∧
    (compute_totals exNoSavedPeriods).rtk_commands = 0 := by
  have h := C10_totals_zero_defaults exNoSavedPeriods
  exact ⟨h.2.2.2.2.2.2.2.1 (by decide) (by decide),
    h.2.2.2.1 (by decide)⟩
